import Mathlib

/-!
Verification of the health-metrics aggregation engine of `stats-converter`.

The TypeScript source is shallowly embedded: JavaScript numbers are modelled
as exact rationals `ℚ` (reals `ℝ` where the source takes a square root),
JavaScript objects keyed by strings are modelled as insertion-ordered
association lists `List (String × α)` with the update-or-append operation
`setKey`, and `Math.round` is modelled by its ECMAScript semantics
(round to nearest, ties toward positive infinity).
-/

namespace StatsConverter

/-! ## JavaScript primitives -/

/-- ECMAScript `Math.round`: nearest integer, ties toward positive infinity,
which is `⌊x + 1/2⌋`. -/
def jsRound (q : ℚ) : ℤ := ⌊q + 1/2⌋

/-- Embedding of `roundToTwoDecimals` (src/processors/base.ts lines 54-56 and
src/processors/health/parsers/base.ts lines 49-51, identical bodies):
`Math.round(value * 100) / 100`. -/
def roundToTwoDecimals (q : ℚ) : ℚ := (jsRound (q * 100) : ℚ) / 100

/-- Spec-side definition, following the words of the specification only:
rounding to two decimal places with round-half-away-from-zero semantics at
the hundredths digit. For comparison with `roundToTwoDecimals`. -/
def roundHalfAwayFromZeroHundredths (q : ℚ) : ℚ :=
  ((if 0 ≤ q then ⌊q * 100 + 1/2⌋ else -⌊(-q) * 100 + 1/2⌋ : ℤ) : ℚ) / 100

/-- JavaScript object property assignment `obj[k] = v` on an insertion-ordered
association list: update the value in place if the key exists, otherwise
append the new binding at the end. -/
def setKey {α : Type} (l : List (String × α)) (k : String) (v : α) :
    List (String × α) :=
  match l with
  | [] => [(k, v)]
  | (k₀, v₀) :: rest =>
      if k₀ = k then (k₀, v) :: rest else (k₀, v₀) :: setKey rest k v

theorem lookup_setKey_self {α : Type} (l : List (String × α)) (k : String)
    (v : α) : (setKey l k v).lookup k = some v := by
  induction l with
  | nil => simp [setKey, List.lookup]
  | cons p rest ih =>
      obtain ⟨k₀, v₀⟩ := p
      by_cases h : k₀ = k
      · subst h; simp [setKey, List.lookup]
      · simp only [setKey, if_neg h, List.lookup]
        have : (k == k₀) = false := by
          simp [beq_iff_eq]; exact fun hk => h hk.symm
        simp [this, ih]

theorem lookup_setKey_other {α : Type} (l : List (String × α)) (k k' : String)
    (v : α) (hne : k' ≠ k) : (setKey l k v).lookup k' = l.lookup k' := by
  induction l with
  | nil =>
      simp only [setKey, List.lookup]
      have : (k' == k) = false := by simp [beq_iff_eq]; exact hne
      simp [this]
  | cons p rest ih =>
      obtain ⟨k₀, v₀⟩ := p
      by_cases h : k₀ = k
      · subst h
        simp only [setKey, if_pos rfl, List.lookup]
        have : (k' == k₀) = false := by simp [beq_iff_eq]; exact hne
        simp [this]
      · simp only [setKey, if_neg h, List.lookup]
        cases hbeq : (k' == k₀) <;> simp [ih]

/-! ## Line tokenizer (src/processors/health/parsers/base.ts lines 63-98 and
src/processors/health/parsers/parser-utils.ts lines 31-66, identical bodies) -/

/-- Loop of `ParserUtils.parseCSVLine`. The walk carries the in-quotes flag,
the character at the previous index (`line[i-1]`, `none` at index 0), the
current field being accumulated, and the list of completed fields. The second
branch consumes the lookahead comma (`i++` inside the loop body). After the
loop, the remaining field is appended only when nonempty (`if (current)`). -/
def parseCSVLineAux (inQuotes : Bool) (prev : Option Char) (current : List Char)
    (acc : List String) : List Char → List String
  | [] => if current.isEmpty then acc else acc ++ [String.mk current]
  | c :: rest =>
    if c = '"' ∧ (prev = none ∨ prev = some ',') then
      parseCSVLineAux true (some c) current acc rest
    else if c = '"' ∧ inQuotes = true ∧ rest.head? = some ',' then
      parseCSVLineAux false (some ',') [] (acc ++ [String.mk current]) rest.tail
    else if c = '"' ∧ inQuotes = true ∧ rest = [] then
      parseCSVLineAux false (some c) [] (acc ++ [String.mk current]) rest
    else if c = ',' ∧ inQuotes = false then
      parseCSVLineAux inQuotes (some c) [] (acc ++ [String.mk current]) rest
    else
      parseCSVLineAux inQuotes (some c) (current ++ [c]) acc rest
termination_by cs => cs.length
decreasing_by
  all_goals simp_all
  all_goals omega

/-- Embedding of `ParserUtils.parseCSVLine`. -/
def parseCSVLine (line : String) : List String :=
  parseCSVLineAux false none [] [] line.toList

/-- Variant of the tokenizer loop used only for comparison: identical to
`parseCSVLineAux` except that the final field is appended unconditionally,
even when empty. -/
def parseCSVLineKeepLastAux (inQuotes : Bool) (prev : Option Char)
    (current : List Char) (acc : List String) : List Char → List String
  | [] => acc ++ [String.mk current]
  | c :: rest =>
    if c = '"' ∧ (prev = none ∨ prev = some ',') then
      parseCSVLineKeepLastAux true (some c) current acc rest
    else if c = '"' ∧ inQuotes = true ∧ rest.head? = some ',' then
      parseCSVLineKeepLastAux false (some ',') [] (acc ++ [String.mk current]) rest.tail
    else if c = '"' ∧ inQuotes = true ∧ rest = [] then
      parseCSVLineKeepLastAux false (some c) [] (acc ++ [String.mk current]) rest
    else if c = ',' ∧ inQuotes = false then
      parseCSVLineKeepLastAux inQuotes (some c) [] (acc ++ [String.mk current]) rest
    else
      parseCSVLineKeepLastAux inQuotes (some c) (current ++ [c]) acc rest
termination_by cs => cs.length
decreasing_by
  all_goals simp_all
  all_goals omega

/-- Tokenization with the final field always kept. -/
def parseCSVLineKeepLast (line : String) : List String :=
  parseCSVLineKeepLastAux false none [] [] line.toList

/-- Removal of a trailing empty field, when present. -/
def dropTrailingEmptyField (r : List String) : List String :=
  if r.getLast? = some "" then r.dropLast else r

theorem parseCSVLineAux_eq_keepLast (inQuotes : Bool) (prev : Option Char)
    (current : List Char) (acc : List String) (cs : List Char) :
    parseCSVLineAux inQuotes prev current acc cs =
      dropTrailingEmptyField (parseCSVLineKeepLastAux inQuotes prev current acc cs) := by
  induction inQuotes, prev, current, acc, cs using parseCSVLineAux.induct with
  | case1 inQuotes prev current acc hemp =>
      have : current = [] := by simpa using hemp
      subst this
      simp [parseCSVLineAux, parseCSVLineKeepLastAux, dropTrailingEmptyField]
  | case2 inQuotes prev current acc hemp =>
      have hne : String.mk current ≠ "" := by
        intro hc
        have : current = [] := by simpa using congrArg String.data hc
        simp [this] at hemp
      simp [parseCSVLineAux, parseCSVLineKeepLastAux, dropTrailingEmptyField,
        hemp, List.getLast?_append, hne]
  | case3 inQuotes prev current acc c rest hcond ih =>
      simp only [parseCSVLineAux, parseCSVLineKeepLastAux, if_pos hcond]
      exact ih
  | case4 inQuotes prev current acc c rest hn1 hcond ih =>
      simp only [parseCSVLineAux, parseCSVLineKeepLastAux, if_neg hn1, if_pos hcond]
      exact ih
  | case5 inQuotes prev current acc c rest hn1 hn2 hcond ih =>
      simp only [parseCSVLineAux, parseCSVLineKeepLastAux, if_neg hn1, if_neg hn2,
        if_pos hcond]
      exact ih
  | case6 inQuotes prev current acc c rest hn1 hn2 hn3 hcond ih =>
      simp only [parseCSVLineAux, parseCSVLineKeepLastAux, if_neg hn1, if_neg hn2,
        if_neg hn3, if_pos hcond]
      exact ih
  | case7 inQuotes prev current acc c rest hn1 hn2 hn3 hn4 ih =>
      simp only [parseCSVLineAux, parseCSVLineKeepLastAux, if_neg hn1, if_neg hn2,
        if_neg hn3, if_neg hn4]
      exact ih

/-! ## Claim C10: trailing empty field -/

/-- C10, counterexample. The claim states that the returned field sequence
never ends with an empty string. Tokenizing the line consisting of a single
comma returns a single empty field, and that sequence does end with an empty
string. -/
theorem parseCSVLine_comma_ends_with_empty :
    parseCSVLine "," = [""] ∧ (parseCSVLine ",").getLast? = some "" := by
  constructor
  · simp [parseCSVLine, parseCSVLineAux]
  · simp [parseCSVLine, parseCSVLineAux]

/-- C10, amended. The tokenizer omits only the FINAL field when that field is
empty: its output is exactly the output of the same walk with the final field
kept, with a trailing empty field removed. In particular tokenizing the line
with the characters a and comma yields the single field a; empty fields
produced earlier in the line are retained, so the result may still end with an
empty string. -/
theorem parseCSVLine_omits_trailing_empty_field (line : String) :
    parseCSVLine line = dropTrailingEmptyField (parseCSVLineKeepLast line) ∧
    parseCSVLine "a," = ["a"] := by
  constructor
  · exact parseCSVLineAux_eq_keepLast false none [] [] line.toList
  · simp [parseCSVLine, parseCSVLineAux]

/-! ## Claim C7: rounding semantics -/

/-- C7, counterexample. The claim states that the shared rounding function has
round-half-away-from-zero semantics at the hundredths digit, moving a tie away
from zero for negative inputs as well. At the negative tie `-0.005` the code
(`Math.round(value * 100) / 100`) returns `0`, while half-away-from-zero
requires `-0.01`, so the claim as stated is false. -/
theorem roundToTwoDecimals_neg_tie_toward_zero :
    roundToTwoDecimals (-(1/200)) = 0 ∧
    roundHalfAwayFromZeroHundredths (-(1/200)) = -(1/100) ∧
    (0 : ℚ) ≠ -(1/100) := by
  refine ⟨?_, ?_, by norm_num⟩
  · norm_num [roundToTwoDecimals, jsRound]
  · norm_num [roundHalfAwayFromZeroHundredths]

/-- C7, amended. For every nonnegative finite input, the shared rounding
function rounds to two decimal places and agrees with half-away-from-zero
semantics at the hundredths digit (ties are resolved toward positive infinity,
which coincides with away-from-zero on nonnegative inputs and rounds toward
zero on negative ties); in particular `15.666666` rounds to `15.67` and
`89.05000305175781` rounds to `89.05`. -/
theorem roundToTwoDecimals_half_up (q : ℚ) (h : 0 ≤ q) :
    roundToTwoDecimals q = roundHalfAwayFromZeroHundredths q ∧
    roundToTwoDecimals (15666666/1000000) = 1567/100 ∧
    roundToTwoDecimals (8905000305175781/100000000000000) = 8905/100 := by
  refine ⟨?_, ?_, ?_⟩
  · simp [roundToTwoDecimals, jsRound, roundHalfAwayFromZeroHundredths, if_pos h]
  · norm_num [roundToTwoDecimals, jsRound]
  · norm_num [roundToTwoDecimals, jsRound]

/-- C7, witness: the amended theorem instantiated at the concrete nonnegative
input `3`. -/
theorem roundToTwoDecimals_half_up_witness :
    (0 : ℚ) ≤ 3 ∧
    (roundToTwoDecimals 3 = roundHalfAwayFromZeroHundredths 3 ∧
     roundToTwoDecimals (15666666/1000000) = 1567/100 ∧
     roundToTwoDecimals (8905000305175781/100000000000000) = 8905/100) :=
  ⟨by norm_num, roundToTwoDecimals_half_up 3 (by norm_num)⟩

theorem lookup_eq_none_iff {α : Type} (l : List (String × α)) (k : String) :
    l.lookup k = none ↔ k ∉ l.map Prod.fst := by
  induction l with
  | nil => simp [List.lookup]
  | cons p rest ih =>
      obtain ⟨k₀, v₀⟩ := p
      by_cases h : k = k₀
      · subst h; simp [List.lookup]
      · have : (k == k₀) = false := by simp [beq_iff_eq]; exact h
        simp [List.lookup, this, ih, h]

theorem mem_of_lookup_eq_some {α : Type} {l : List (String × α)} {k : String}
    {v : α} (h : l.lookup k = some v) : (k, v) ∈ l := by
  induction l with
  | nil => simp [List.lookup] at h
  | cons p rest ih =>
      obtain ⟨k₀, v₀⟩ := p
      by_cases hk : k = k₀
      · subst hk
        simp [List.lookup] at h
        simp [h]
      · have : (k == k₀) = false := by simp [beq_iff_eq]; exact hk
        simp only [List.lookup, this] at h
        exact List.mem_cons_of_mem _ (ih h)

theorem lookup_eq_of_mem_nodup {α : Type} {l : List (String × α)} {k : String}
    {v : α} (hnd : (l.map Prod.fst).Nodup) (h : (k, v) ∈ l) :
    l.lookup k = some v := by
  induction l with
  | nil => simp at h
  | cons p rest ih =>
      obtain ⟨k₀, v₀⟩ := p
      rw [List.map_cons] at hnd
      have hnd' := List.nodup_cons.mp hnd
      rcases List.mem_cons.mp h with heq | hmem
      · have hk : k = k₀ := congrArg Prod.fst heq
        have hv : v = v₀ := congrArg Prod.snd heq
        subst hk; subst hv
        simp [List.lookup]
      · have hk : k ≠ k₀ := by
          intro hkk
          exact hnd'.1 (hkk ▸ List.mem_map.mpr ⟨(k, v), hmem, rfl⟩)
        have : (k == k₀) = false := by simp [beq_iff_eq]; exact hk
        simp only [List.lookup, this]
        exact ih hnd'.2 hmem

theorem mem_setKey {α : Type} {l : List (String × α)} {k : String} {v : α}
    {p : String × α} (h : p ∈ setKey l k v) : p ∈ l ∨ p = (k, v) := by
  induction l with
  | nil => simp [setKey] at h; simp [h]
  | cons q rest ih =>
      obtain ⟨k₀, v₀⟩ := q
      by_cases hk : k₀ = k
      · subst hk
        simp only [setKey, if_pos rfl] at h
        rcases List.mem_cons.mp h with h | h
        · right; rw [h]
        · left; exact List.mem_cons_of_mem _ h
      · simp only [setKey, if_neg hk] at h
        rcases List.mem_cons.mp h with h | h
        · left; simp [h]
        · rcases ih h with h | h
          · left; exact List.mem_cons_of_mem _ h
          · right; exact h

theorem keys_setKey_of_mem {α : Type} (l : List (String × α)) (k : String)
    (v : α) (h : k ∈ l.map Prod.fst) :
    (setKey l k v).map Prod.fst = l.map Prod.fst := by
  induction l with
  | nil => simp at h
  | cons q rest ih =>
      obtain ⟨k₀, v₀⟩ := q
      by_cases hk : k₀ = k
      · subst hk; simp [setKey]
      · have hmem : k ∈ rest.map Prod.fst := by
          simp at h
          rcases h with h | h
          · exact absurd h.symm hk
          · simpa using h
        simp [setKey, hk, ih hmem]

theorem keys_setKey_of_not_mem {α : Type} (l : List (String × α)) (k : String)
    (v : α) (h : k ∉ l.map Prod.fst) :
    (setKey l k v).map Prod.fst = l.map Prod.fst ++ [k] := by
  induction l with
  | nil => simp [setKey]
  | cons q rest ih =>
      obtain ⟨k₀, v₀⟩ := q
      have hk : k₀ ≠ k := by
        intro hkk
        exact h (by simp [hkk])
      have hmem : k ∉ rest.map Prod.fst := by
        intro hm
        exact h (by simp [hm])
      simp [setKey, hk, ih hmem]

theorem nodup_keys_setKey {α : Type} (l : List (String × α)) (k : String)
    (v : α) (hnd : (l.map Prod.fst).Nodup) :
    ((setKey l k v).map Prod.fst).Nodup := by
  by_cases h : k ∈ l.map Prod.fst
  · rw [keys_setKey_of_mem l k v h]; exact hnd
  · rw [keys_setKey_of_not_mem l k v h]
    simp [List.nodup_append, hnd, h]

/-! ## Health record data model (src/processors/health.ts lines 9-17) -/

/-- JavaScript value of type `number | string`. -/
inductive JSVal where
  | num (q : ℚ)
  | str (s : String)
deriving DecidableEq

/-- Embedding of the `HealthRecord` interface. -/
structure HealthRecord where
  date : String
  type : String
  value : JSVal
  duration : Option ℚ := none
  startDate : Option String := none
  endDate : Option String := none
  unit : Option String := none
deriving DecidableEq

/-- Embedding of `HealthProcessor.groupDataByDateAndType`
(src/processors/health.ts lines 449-470): a nested insertion-ordered map from
date to type to the records pushed in input order. -/
def groupDataByDateAndType (data : List HealthRecord) :
    List (String × List (String × List HealthRecord)) :=
  data.foldl
    (fun g r =>
      let inner := (g.lookup r.date).getD []
      let recs := (inner.lookup r.type).getD []
      setKey g r.date (setKey inner r.type (recs ++ [r])))
    []

/-- JavaScript `String.prototype.replace` with a plain-string pattern and the
empty replacement: removes the first occurrence of the pattern. -/
def removeFirstOccurrenceAux (pat : List Char) : List Char → List Char
  | [] => []
  | c :: rest =>
      if pat.isPrefixOf (c :: rest) then (c :: rest).drop pat.length
      else c :: removeFirstOccurrenceAux pat rest

/-- JavaScript `s.replace(pat, "")` for a plain-string pattern. -/
def removeFirstOccurrence (s pat : String) : String :=
  String.mk (removeFirstOccurrenceAux pat.toList s.toList)

/-- Combined per-day record built by the metric processors of
src/processors/health.ts: a date and an insertion-ordered metrics map. -/
structure DailyMetricsHP where
  date : String
  metrics : List (String × JSVal)
deriving DecidableEq

/-- Embedding of `BodyCompositionProcessor.BODY_METRICS`
(src/processors/health.ts lines 139-144). -/
def BODY_METRICS : List String :=
  ["HKQuantityTypeIdentifierBodyFatPercentage",
   "HKQuantityTypeIdentifierBodyMass",
   "HKQuantityTypeIdentifierBodyMassIndex",
   "HKQuantityTypeIdentifierLeanBodyMass"]

/-- Embedding of `BodyCompositionProcessor.processMetrics`
(src/processors/health.ts lines 146-171). For every date of the grouped data
an entry is ensured in `combined`; for every grouped type that is a body
metric and has at least one record, the metric named by stripping the
`HKQuantityTypeIdentifier` prefix is set to `records[0].value` — the value of
the FIRST record of that date and type. -/
def bodyCompositionProcessMetrics
    (groupedData : List (String × List (String × List HealthRecord)))
    (combined : List (String × DailyMetricsHP)) : List (String × DailyMetricsHP) :=
  groupedData.foldl
    (fun comb dateEntry =>
      let date := dateEntry.1
      let dateData := dateEntry.2
      let comb :=
        if (comb.lookup date).isNone then setKey comb date ⟨date, []⟩ else comb
      dateData.foldl
        (fun comb2 typeEntry =>
          let ty := typeEntry.1
          if ty ∈ BODY_METRICS then
            match typeEntry.2 with
            | [] => comb2
            | r0 :: _ =>
                let e := (comb2.lookup date).getD ⟨date, []⟩
                setKey comb2 date
                  ⟨e.date,
                   setKey e.metrics
                     (removeFirstOccurrence ty "HKQuantityTypeIdentifier")
                     r0.value⟩
          else comb2)
        comb)
    combined

/-- Body-mass record used in claim C1, mirroring the repository test data. -/
def c1BodyMassRecord (v : ℚ) : HealthRecord :=
  { date := "2025-08-23", type := "HKQuantityTypeIdentifierBodyMass",
    value := .num v, unit := some "kg" }

/-! ## Claim C1: body metrics keep the first record, not the last -/

/-- C1, evaluation at the failing input. Two body-mass records on 2025-08-23
with values `89` (earlier) and `89.25` (later): `BodyCompositionProcessor`
stores `records[0].value`, so the day record holds the FIRST value `89`, not
the later `89.25` required by the claim. -/
theorem bodyComposition_keeps_first_value :
    ((bodyCompositionProcessMetrics
        (groupDataByDateAndType [c1BodyMassRecord 89, c1BodyMassRecord (8925/100)])
        []).lookup "2025-08-23").map (fun e => e.metrics.lookup "BodyMass") =
      some (some (JSVal.num 89)) ∧
    JSVal.num 89 ≠ JSVal.num (8925/100) := by
  constructor
  · simp [bodyCompositionProcessMetrics, groupDataByDateAndType, c1BodyMassRecord,
      BODY_METRICS, setKey, List.lookup, removeFirstOccurrence,
      removeFirstOccurrenceAux, List.isPrefixOf]
  · simp only [ne_eq, JSVal.num.injEq]
    norm_num

/-! ## Sleep session groupers

Timestamp strings are interpreted by two environment functions passed as
parameters: `getTime` models `new Date(s).getTime()` (milliseconds since the
epoch) and `extractDate` models `BaseProcessor.extractDate` (the calendar date
of the timestamp). JavaScript `Array.prototype.sort` is modelled by the stable
`List.insertionSort`. -/

/-- Millisecond gap threshold of src/processors/health.ts line 7. -/
def SLEEP_SESSION_GAP_THRESHOLD_MS : ℤ := 1800000

/-- Sort key used by both groupers: `new Date(r.startDate || "").getTime()`. -/
def sleepSortLE (getTime : String → ℤ) (a b : HealthRecord) : Prop :=
  getTime (a.startDate.getD "") ≤ getTime (b.startDate.getD "")

instance (getTime : String → ℤ) : DecidableRel (sleepSortLE getTime) :=
  fun a b => by unfold sleepSortLE; infer_instance

/-- Embedding of `HealthProcessor.groupSleepDataBySession`
(src/processors/health.ts lines 621-664): walk the records sorted by start
time; when there is no open session, or the gap between the current record
start and the previous record end exceeds the 30-minute threshold, flush the
open session under the key `extractDate(sessionData[0].startDate || "")` and
open a new one; otherwise append. The remaining session is flushed at the
end. -/
def healthGroupSleepDataBySession (getTime : String → ℤ)
    (extractDate : String → String) (sleepData : List HealthRecord) :
    List (String × List HealthRecord) :=
  if sleepData = [] then []
  else
    let sortedData := sleepData.insertionSort (sleepSortLE getTime)
    let result := sortedData.foldl
      (fun st record =>
        let sessions := st.1
        let sessionData := st.2
        let startTime := getTime (record.startDate.getD "")
        let gapExceeded : Bool :=
          match sessionData.getLast? with
          | none => true
          | some lastRecord =>
              decide (startTime - getTime (lastRecord.endDate.getD "") >
                SLEEP_SESSION_GAP_THRESHOLD_MS)
        if sessionData.isEmpty || gapExceeded then
          let sessions :=
            match sessionData.head? with
            | none => sessions
            | some firstRecord =>
                setKey sessions (extractDate (firstRecord.startDate.getD ""))
                  sessionData
          (sessions, [record])
        else (sessions, sessionData ++ [record]))
      ([], [])
    match result.2.head? with
    | none => result.1
    | some firstRecord =>
        setKey result.1 (extractDate (firstRecord.startDate.getD "")) result.2

/-- Embedding of `SleepCalculator.groupSleepDataBySession`
(src/processors/health.ts lines 257-298). Note the differences from
`healthGroupSleepDataBySession`: the hardcoded `sessionThreshold = 120`
interpreted in minutes, and the session key, which is the raw
`record.startDate` string, not a calendar date. Records missing a start or end
timestamp are skipped. The lookup of the current session cannot fail on the
reachable states; an empty current session is modelled as a skip. -/
def sleepCalcGroupSleepDataBySession (getTime : String → ℤ)
    (data : List HealthRecord) : List (String × List HealthRecord) :=
  let sessionThreshold : ℚ := 120
  let sorted := data.insertionSort (sleepSortLE getTime)
  let result := sorted.foldl
    (fun st record =>
      let sessions := st.1
      let currentSessionStart := st.2
      if record.startDate = none ∨ record.endDate = none then st
      else
        let recordStart := getTime (record.startDate.getD "")
        match currentSessionStart with
        | none =>
            (setKey sessions (record.startDate.getD "") [record],
             some (record.startDate.getD ""))
        | some cur =>
            let lastSession := (sessions.lookup cur).getD []
            match lastSession.getLast? with
            | none => (sessions, currentSessionStart)
            | some lastRecord =>
                match lastRecord.endDate with
                | none => (sessions, currentSessionStart)
                | some lastEndStr =>
                    let lastEnd := getTime lastEndStr
                    let gapMinutes : ℚ :=
                      ((recordStart - lastEnd : ℤ) : ℚ) / (1000 * 60)
                    if gapMinutes > sessionThreshold then
                      (setKey sessions (record.startDate.getD "") [record],
                       some (record.startDate.getD ""))
                    else
                      (setKey sessions cur (lastSession ++ [record]),
                       currentSessionStart))
    (([] : List (String × List HealthRecord)), (none : Option String))
  result.1

/-! ## Claims C2 and C5: gap threshold and session keying -/

/-- Sleep record helper for the grouper claims. -/
def mkSleepRecord (d s e : String) : HealthRecord :=
  { date := d, type := "HKCategoryTypeIdentifierSleepAnalysis",
    value := .str "asleepCore", duration := some 10,
    startDate := some s, endDate := some e }

/-- Millisecond clock for the timestamps of claims C2 and C5, modelling
`new Date(s).getTime()` on the concrete strings involved (epoch chosen at the
first start). -/
def sessionGetTime (s : String) : ℤ :=
  if s = "2025-08-24 23:30:00" then 0
  else if s = "2025-08-24 23:40:00" then 600000
  else if s = "2025-08-25 00:10:00" then 2400000
  else if s = "2025-08-25 00:10:01" then 2401000
  else if s = "2025-08-25 00:40:00" then 4200000
  else if s = "2025-08-25 00:40:01" then 4201000
  else if s = "2025-08-25 01:00:00" then 5400000
  else if s = "2025-08-25 06:00:00" then 23400000
  else 0

/-- Calendar-date extraction for the timestamps of claims C2 and C5,
modelling `BaseProcessor.extractDate` on the concrete strings involved. -/
def sessionExtractDate (s : String) : String :=
  if s = "2025-08-24 23:30:00" then "2025-08-24"
  else if s = "2025-08-25 00:10:00" then "2025-08-25"
  else if s = "2025-08-25 00:10:01" then "2025-08-25"
  else if s = "2025-08-25 01:00:00" then "2025-08-25"
  else s

/-- First sleep record of claim C2: 23:30 to 23:40. -/
def c2r1 : HealthRecord :=
  mkSleepRecord "2025-08-24" "2025-08-24 23:30:00" "2025-08-24 23:40:00"

/-- Second sleep record of claim C2, exactly 30 minutes after the end of the
first. -/
def c2r2 : HealthRecord :=
  mkSleepRecord "2025-08-25" "2025-08-25 00:10:00" "2025-08-25 00:40:00"

/-- Second sleep record of claim C2, 30 minutes and 1 second after the end of
the first. -/
def c2r3 : HealthRecord :=
  mkSleepRecord "2025-08-25" "2025-08-25 00:10:01" "2025-08-25 00:40:01"

/-- C2, evaluation at the failing input. The first two conjuncts show that
`HealthProcessor.groupSleepDataBySession` behaves exactly as the claim states:
a gap of exactly 30 minutes keeps the record in the session, a gap of 30
minutes and 1 second opens a new session keyed by the calendar date of the
current record start. The third conjunct shows the divergent duplicate
`SleepCalculator.groupSleepDataBySession` on the same 30-minutes-and-1-second
input: with its hardcoded 120-minute threshold the two records stay in ONE
session, and the session is keyed by the raw start timestamp, not a calendar
date. -/
theorem sleepSessionGap_thirty_minute_boundary :
    healthGroupSleepDataBySession sessionGetTime sessionExtractDate [c2r1, c2r2] =
      [("2025-08-24", [c2r1, c2r2])] ∧
    healthGroupSleepDataBySession sessionGetTime sessionExtractDate [c2r1, c2r3] =
      [("2025-08-24", [c2r1]), ("2025-08-25", [c2r3])] ∧
    sleepCalcGroupSleepDataBySession sessionGetTime [c2r1, c2r3] =
      [("2025-08-24 23:30:00", [c2r1, c2r3])] := by
  refine ⟨?_, ?_, ?_⟩
  · simp +decide [healthGroupSleepDataBySession, c2r1, c2r2, mkSleepRecord,
      sleepSortLE, sessionGetTime, sessionExtractDate,
      SLEEP_SESSION_GAP_THRESHOLD_MS, setKey, List.lookup]
  · simp +decide [healthGroupSleepDataBySession, c2r1, c2r3, mkSleepRecord,
      sleepSortLE, sessionGetTime, sessionExtractDate,
      SLEEP_SESSION_GAP_THRESHOLD_MS, setKey, List.lookup]
  · simp +decide [sleepCalcGroupSleepDataBySession, c2r1, c2r3, mkSleepRecord,
      sleepSortLE, sessionGetTime, setKey, List.lookup]
    rw [if_neg (by norm_num)]

/-- First sleep record of claim C5: 23:30 to 01:00 the next day. -/
def c5r1 : HealthRecord :=
  mkSleepRecord "2025-08-24" "2025-08-24 23:30:00" "2025-08-25 01:00:00"

/-- Second sleep record of claim C5: 01:00 to 06:00, same session. -/
def c5r2 : HealthRecord :=
  mkSleepRecord "2025-08-25" "2025-08-25 01:00:00" "2025-08-25 06:00:00"

/-- C5, evaluation at the failing input. A session starting 2025-08-24
23:30:00 and ending 2025-08-25 06:00:00: under
`HealthProcessor.groupSleepDataBySession` it is keyed `2025-08-24` (not
`2025-08-25`), exactly as the claim states; under the divergent duplicate
`SleepCalculator.groupSleepDataBySession` the session is keyed by the raw
start timestamp string instead of the calendar date. -/
theorem sleepSession_keyed_by_start_date :
    healthGroupSleepDataBySession sessionGetTime sessionExtractDate [c5r1, c5r2] =
      [("2025-08-24", [c5r1, c5r2])] ∧
    (healthGroupSleepDataBySession sessionGetTime sessionExtractDate
        [c5r1, c5r2]).lookup "2025-08-25" = none ∧
    sleepCalcGroupSleepDataBySession sessionGetTime [c5r1, c5r2] =
      [("2025-08-24 23:30:00", [c5r1, c5r2])] := by
  refine ⟨?_, ?_, ?_⟩
  · simp +decide [healthGroupSleepDataBySession, c5r1, c5r2, mkSleepRecord,
      sleepSortLE, sessionGetTime, sessionExtractDate,
      SLEEP_SESSION_GAP_THRESHOLD_MS, setKey, List.lookup]
  · simp +decide [healthGroupSleepDataBySession, c5r1, c5r2, mkSleepRecord,
      sleepSortLE, sessionGetTime, sessionExtractDate,
      SLEEP_SESSION_GAP_THRESHOLD_MS, setKey, List.lookup]
  · simp +decide [sleepCalcGroupSleepDataBySession, c5r1, c5r2, mkSleepRecord,
      sleepSortLE, sessionGetTime, setKey, List.lookup]

/-! ## Sleep metrics calculator (src/processors/health.ts lines 210-255 and
552-603; the wake-up logic of the two duplicates is identical) -/

/-- Embedding of the `SleepMetrics` interface. The `wakeUps` field is a
JavaScript number, hence a rational. -/
structure SleepMetrics where
  Core : String
  Deep : String
  REM : String
  Total : String
  wakeUps : ℚ
deriving DecidableEq

/-- Embedding of `ASLEEP_STATES` (src/processors/health.ts lines 203-207). -/
def ASLEEP_STATES : List String := ["asleepCore", "asleepDeep", "asleepREM"]

/-- Accumulator object `sleepMetrics` of `calculateSleepMetrics`: the five
stage buckets plus the wake-up counter live in ONE JavaScript object. -/
structure SleepAccum where
  inBed : ℚ
  asleepCore : ℚ
  asleepDeep : ℚ
  asleepREM : ℚ
  awake : ℚ
  wakeUps : ℚ

/-- Models `if (state in sleepMetrics) sleepMetrics[state] += duration`. Note
that `wakeUps` is an own property of the accumulator object, so the literal
stage value `wakeUps` passes the membership check and its duration is added to
the wake-up counter. -/
def addToStage (m : SleepAccum) (s : String) (d : ℚ) : SleepAccum :=
  if s = "inBed" then { m with inBed := m.inBed + d }
  else if s = "asleepCore" then { m with asleepCore := m.asleepCore + d }
  else if s = "asleepDeep" then { m with asleepDeep := m.asleepDeep + d }
  else if s = "asleepREM" then { m with asleepREM := m.asleepREM + d }
  else if s = "awake" then { m with awake := m.awake + d }
  else if s = "wakeUps" then { m with wakeUps := m.wakeUps + d }
  else m

/-- JavaScript truthiness of the `previousState` variable: `null` and the
empty string are falsy, as is the number `0`. -/
def jsTruthy : Option JSVal → Bool
  | none => false
  | some (.str s) => !(s == "")
  | some (.num q) => !(q == 0)

/-- Decides `ASLEEP_STATES.includes(previousState)`: true exactly when the
previous value is one of the three asleep stage strings. -/
def prevAsleep : Option JSVal → Bool
  | some (.str p) => decide (p ∈ ASLEEP_STATES)
  | _ => false

/-- One iteration of the record loop of `calculateSleepMetrics`: add the
duration to the matching stage bucket, then count a wake-up when the previous
state is truthy, an asleep stage, and the current value is `awake`. -/
def sleepStep (st : SleepAccum × Option JSVal) (r : HealthRecord) :
    SleepAccum × Option JSVal :=
  let duration := r.duration.getD 0
  let state := r.value
  let m :=
    match state with
    | .str s => addToStage st.1 s duration
    | .num _ => st.1
  let m :=
    if jsTruthy st.2 && prevAsleep st.2 && (state == JSVal.str "awake") then
      { m with wakeUps := m.wakeUps + 1 }
    else m
  (m, some state)

/-- Embedding of `SleepCalculator.formatTimeFromMinutes`
(src/processors/health.ts lines 300-304). -/
def formatTimeFromMinutes (minutes : ℤ) : String :=
  let hours := Int.fdiv minutes 60
  let remainingMinutes := Int.tmod minutes 60
  toString hours ++ "h " ++ toString remainingMinutes ++ "m"

/-- Embedding of `SleepCalculator.calculateSleepMetrics`
(src/processors/health.ts lines 210-255): `null` on an empty session,
otherwise the per-stage totals rounded to whole minutes and formatted, the
total over the three asleep stages, and the wake-up counter. -/
def calculateSleepMetrics (sleepData : List HealthRecord) :
    Option SleepMetrics :=
  if sleepData.isEmpty then none
  else
    let res := sleepData.foldl sleepStep (⟨0, 0, 0, 0, 0, 0⟩, none)
    let m := res.1
    let totalSleep := m.asleepCore + m.asleepDeep + m.asleepREM
    some { Core := formatTimeFromMinutes (jsRound m.asleepCore),
           Deep := formatTimeFromMinutes (jsRound m.asleepDeep),
           REM := formatTimeFromMinutes (jsRound m.asleepREM),
           Total := formatTimeFromMinutes (jsRound totalSleep),
           wakeUps := m.wakeUps }

/-- Specification-side count: the number of adjacent positions whose stage
transitions from one of the asleep stages directly to `awake`. -/
def countAsleepToAwake (l : List HealthRecord) : ℕ :=
  ((l.zip l.tail).filter
    (fun p => prevAsleep (some p.1.value) && (p.2.value == JSVal.str "awake"))).length

/-- Running count of wake-up transitions seen by the loop, starting from a
given previous state. -/
def countFrom (prev : Option JSVal) : List HealthRecord → ℕ
  | [] => 0
  | r :: rest =>
      (if jsTruthy prev && prevAsleep prev && (r.value == JSVal.str "awake")
       then 1 else 0) + countFrom (some r.value) rest

theorem jsTruthy_and_prevAsleep (o : Option JSVal) :
    (jsTruthy o && prevAsleep o) = prevAsleep o := by
  match o with
  | none => rfl
  | some (.num q) => simp [jsTruthy, prevAsleep]
  | some (.str s) =>
      by_cases h : s ∈ ASLEEP_STATES
      · have hs : s ≠ "" := by
          rintro rfl
          exact absurd h (by decide)
        simp [jsTruthy, prevAsleep, h, hs]
      · simp [jsTruthy, prevAsleep, h]

theorem addToStage_wakeUps (m : SleepAccum) (s : String) (d : ℚ)
    (hs : s ≠ "wakeUps") : (addToStage m s d).wakeUps = m.wakeUps := by
  simp only [addToStage]
  split_ifs <;> simp_all

theorem foldl_sleepStep_wakeUps (l : List HealthRecord) :
    ∀ (m : SleepAccum) (prev : Option JSVal),
      (∀ r ∈ l, r.value ≠ JSVal.str "wakeUps") →
      (l.foldl sleepStep (m, prev)).1.wakeUps = m.wakeUps + countFrom prev l := by
  induction l with
  | nil => intro m prev _; simp [countFrom]
  | cons r rest ih =>
      intro m prev hw
      have hwr : r.value ≠ JSVal.str "wakeUps" := hw r (by simp)
      have hwrest : ∀ x ∈ rest, x.value ≠ JSVal.str "wakeUps" :=
        fun x hx => hw x (by simp [hx])
      have hstage :
          (match r.value with
            | .str s => addToStage m s (r.duration.getD 0)
            | .num _ => m).wakeUps = m.wakeUps := by
        match hv : r.value with
        | .num q => rfl
        | .str s =>
            have : s ≠ "wakeUps" := by
              intro h; exact hwr (by rw [hv, h])
            exact addToStage_wakeUps m s _ this
      simp only [List.foldl_cons, sleepStep]
      rw [ih _ _ hwrest]
      by_cases hc : (jsTruthy prev && prevAsleep prev &&
          (r.value == JSVal.str "awake")) = true
      · simp only [hc, if_pos]
        simp only [countFrom, hc, if_pos]
        push_cast
        rw [hstage]
        ring
      · simp only [hc]
        simp only [Bool.not_eq_true] at hc
        simp only [countFrom, hc, if_neg, Bool.false_eq_true, not_false_iff]
        push_cast
        rw [hstage]
        ring

theorem countFrom_some (rest : List HealthRecord) :
    ∀ r : HealthRecord,
      countFrom (some r.value) rest = countAsleepToAwake (r :: rest) := by
  induction rest with
  | nil => intro r; simp [countFrom, countAsleepToAwake]
  | cons b rest2 ih =>
      intro r
      simp only [countFrom, jsTruthy_and_prevAsleep]
      rw [ih b]
      simp only [countAsleepToAwake, List.zip, List.zipWith_cons_cons,
        List.tail_cons]
      by_cases hc : (prevAsleep (some r.value) && (b.value == JSVal.str "awake")) = true
      · simp [List.filter_cons, hc, Nat.add_comm]
      · simp only [Bool.not_eq_true] at hc
        simp [List.filter_cons, hc]

/-! ## Claim C9: wake-up counting -/

/-- Record with a given stage value, used in claim C9. -/
def mkStageRecord (s : String) : HealthRecord :=
  { date := "2025-08-17", type := "HKCategoryTypeIdentifierSleepAnalysis",
    value := .str s, duration := some 10 }

/-- C9, counterexample. The claim quantifies over every session record list,
but a record whose stage value is the literal string `wakeUps` passes the
`state in sleepMetrics` membership check, and its DURATION is added to the
wake-up counter: for the session `asleepCore` then `wakeUps` (duration 5) the
computed `wakeUps` is `5`, while no asleep-to-awake transition occurs. -/
theorem calculateSleepMetrics_wakeUps_literal_counterexample :
    (calculateSleepMetrics
        [mkStageRecord "asleepCore",
         { mkStageRecord "wakeUps" with duration := some 5 }]).map (·.wakeUps) =
      some 5 ∧
    countAsleepToAwake
        [mkStageRecord "asleepCore",
         { mkStageRecord "wakeUps" with duration := some 5 }] = 0 ∧
    (5 : ℚ) ≠ 0 := by
  refine ⟨?_, by decide, by norm_num⟩
  simp +decide [calculateSleepMetrics, sleepStep, addToStage, jsTruthy,
    prevAsleep, mkStageRecord, ASLEEP_STATES]

/-- C9, amended. For every nonempty session record list none of whose records
carries the literal stage value `wakeUps`, the wake-up count equals the number
of positions where the stage transitions from one of
`asleepCore`/`asleepDeep`/`asleepREM` directly to `awake`; transitions between
asleep stages and from `awake` back to an asleep stage do not count. -/
theorem calculateSleepMetrics_wakeUps_spec (l : List HealthRecord)
    (hne : l ≠ []) (hw : ∀ r ∈ l, r.value ≠ JSVal.str "wakeUps") :
    (calculateSleepMetrics l).map (·.wakeUps) =
      some (countAsleepToAwake l : ℚ) := by
  match l, hne with
  | r :: rest, _ =>
      simp only [calculateSleepMetrics, List.isEmpty_cons, Bool.false_eq_true,
        if_false, Option.map_some]
      have := foldl_sleepStep_wakeUps (r :: rest) ⟨0, 0, 0, 0, 0, 0⟩ none hw
      simp only [this]
      simp only [countFrom, jsTruthy, Bool.false_and, Bool.false_eq_true,
        if_neg, not_false_iff, countFrom_some rest r]
      norm_num

/-- C9, witness: the amended theorem at the stage sequence of the claim,
`asleepCore, asleepDeep, awake, asleepREM, awake`, which has exactly two
asleep-to-awake transitions, so `wakeUps = 2`. -/
theorem calculateSleepMetrics_wakeUps_spec_witness :
    ([mkStageRecord "asleepCore", mkStageRecord "asleepDeep",
      mkStageRecord "awake", mkStageRecord "asleepREM",
      mkStageRecord "awake"] ≠ ([] : List HealthRecord) ∧
     ∀ r ∈ [mkStageRecord "asleepCore", mkStageRecord "asleepDeep",
        mkStageRecord "awake", mkStageRecord "asleepREM",
        mkStageRecord "awake"], r.value ≠ JSVal.str "wakeUps") ∧
    (calculateSleepMetrics
        [mkStageRecord "asleepCore", mkStageRecord "asleepDeep",
         mkStageRecord "awake", mkStageRecord "asleepREM",
         mkStageRecord "awake"]).map (·.wakeUps) =
      some (countAsleepToAwake
        [mkStageRecord "asleepCore", mkStageRecord "asleepDeep",
         mkStageRecord "awake", mkStageRecord "asleepREM",
         mkStageRecord "awake"] : ℚ) ∧
    countAsleepToAwake
        [mkStageRecord "asleepCore", mkStageRecord "asleepDeep",
         mkStageRecord "awake", mkStageRecord "asleepREM",
         mkStageRecord "awake"] = 2 :=
  ⟨⟨by decide, by decide⟩,
   calculateSleepMetrics_wakeUps_spec _ (by decide) (by decide),
   by decide⟩

/-! ## Derived metrics (src/processors/health.ts lines 341-382 and
src/processors/health/calculations.ts lines 3-13)

JavaScript numbers flowing through `Math.sqrt` are modelled as real numbers;
the definitions in this section are therefore noncomputable. Metric values in
this fragment are numeric (the claim conditions on numeric metrics). -/

noncomputable section

/-- Embedding of `calculateHeight` (src/processors/health/calculations.ts
lines 3-5): `Math.sqrt(bodyMass / bmi)`. -/
def calculateHeight (bodyMass bmi : ℝ) : ℝ := Real.sqrt (bodyMass / bmi)

/-- Embedding of `calculateFFMI` (src/processors/health/calculations.ts
lines 7-9): `leanBodyMass / (height * height)`. -/
def calculateFFMI (leanBodyMass height : ℝ) : ℝ :=
  leanBodyMass / (height * height)

/-- Embedding of `calculateBCI` (src/processors/health/calculations.ts
lines 11-13): `ffmi * (1 - bodyFatPercentage)` with the body-fat fraction. -/
def calculateBCI (ffmi bodyFatPercentage : ℝ) : ℝ :=
  ffmi * (1 - bodyFatPercentage)

/-- Modelled from the spec: the constant `BODY_FAT_PERCENTAGE_CONVERSION`
referenced at src/processors/health.ts line 374 is defined in a constants
module that is not under src/; per the spec formula
`BCI = FFMI * (1 - bodyFatPercentage / 100)` its value is 100. -/
def BODY_FAT_PERCENTAGE_CONVERSION : ℝ := 100

/-- Real-valued variant of the shared two-decimal rounding used for the
derived metrics. -/
def roundToTwoDecimalsR (x : ℝ) : ℝ := ((⌊x * 100 + 1/2⌋ : ℤ) : ℝ) / 100

open Classical in
/-- Embedding of the per-date body of `DerivedMetricsProcessor.processMetrics`
(src/processors/health.ts lines 349-381): when the four base metrics are
present and truthy (nonzero; the real-number model has no NaN), compute
height, FFMI and BCI and store FFMI and BCI rounded to two decimals. -/
def derivedMetricsUpdate (metrics : List (String × ℝ)) : List (String × ℝ) :=
  if (match metrics.lookup "BodyMass" with | some v => v ≠ 0 | none => False) ∧
     (match metrics.lookup "BodyMassIndex" with | some v => v ≠ 0 | none => False) ∧
     (match metrics.lookup "LeanBodyMass" with | some v => v ≠ 0 | none => False) ∧
     (match metrics.lookup "BodyFatPercentage" with | some v => v ≠ 0 | none => False)
  then
    let bodyMass := (metrics.lookup "BodyMass").getD 0
    let bmi := (metrics.lookup "BodyMassIndex").getD 0
    let leanBodyMass := (metrics.lookup "LeanBodyMass").getD 0
    let bodyFatPercentage := (metrics.lookup "BodyFatPercentage").getD 0
    let height := calculateHeight bodyMass bmi
    let ffmi := calculateFFMI leanBodyMass height
    let bci := calculateBCI ffmi (bodyFatPercentage / BODY_FAT_PERCENTAGE_CONVERSION)
    setKey (setKey metrics "FFMI" (roundToTwoDecimalsR ffmi)) "BCI"
      (roundToTwoDecimalsR bci)
  else metrics

/-- Combined per-day record with real-valued metrics. -/
structure DailyMetricsR where
  date : String
  metrics : List (String × ℝ)

/-- Embedding of `DerivedMetricsProcessor.processMetrics`: the per-date update
applied to every combined record. -/
def derivedMetricsProcessMetrics (combined : List (String × DailyMetricsR)) :
    List (String × DailyMetricsR) :=
  combined.map (fun e => (e.1, ⟨e.2.date, derivedMetricsUpdate e.2.metrics⟩))

end

/-! ## Claim C3: derived FFMI and BCI -/

/-- C3. For every metrics map holding numeric nonzero BodyMass, BodyMassIndex,
LeanBodyMass and BodyFatPercentage (whole percent), the derived-metrics pass
adds `FFMI = leanBodyMass / (sqrt(bodyMass / bmi))^2` and
`BCI = FFMI * (1 - bodyFatPercentage / 100)` (from the unrounded FFMI), each
stored rounded to two decimal places. -/
theorem derivedMetrics_spec (metrics : List (String × ℝ)) (bm bmi lbm bfp : ℝ)
    (h1 : metrics.lookup "BodyMass" = some bm) (h1n : bm ≠ 0)
    (h2 : metrics.lookup "BodyMassIndex" = some bmi) (h2n : bmi ≠ 0)
    (h3 : metrics.lookup "LeanBodyMass" = some lbm) (h3n : lbm ≠ 0)
    (h4 : metrics.lookup "BodyFatPercentage" = some bfp) (h4n : bfp ≠ 0) :
    (derivedMetricsUpdate metrics).lookup "FFMI" =
      some (roundToTwoDecimalsR (lbm / (Real.sqrt (bm / bmi)) ^ 2)) ∧
    (derivedMetricsUpdate metrics).lookup "BCI" =
      some (roundToTwoDecimalsR
        ((lbm / (Real.sqrt (bm / bmi)) ^ 2) * (1 - bfp / 100))) := by
  have hguard :
      (match metrics.lookup "BodyMass" with | some v => v ≠ 0 | none => False) ∧
      (match metrics.lookup "BodyMassIndex" with | some v => v ≠ 0 | none => False) ∧
      (match metrics.lookup "LeanBodyMass" with | some v => v ≠ 0 | none => False) ∧
      (match metrics.lookup "BodyFatPercentage" with | some v => v ≠ 0 | none => False) := by
    rw [h1, h2, h3, h4]
    exact ⟨h1n, h2n, h3n, h4n⟩
  have hsq : ∀ x : ℝ, x * x = x ^ 2 := fun x => (sq x).symm
  constructor
  · rw [derivedMetricsUpdate, if_pos hguard,
      lookup_setKey_other _ _ _ _ (by decide), lookup_setKey_self]
    rw [h1, h2, h3]
    simp only [Option.getD_some, calculateFFMI, calculateHeight, hsq]
  · rw [derivedMetricsUpdate, if_pos hguard, lookup_setKey_self]
    rw [h1, h2, h3, h4]
    simp only [Option.getD_some, calculateFFMI, calculateHeight, calculateBCI,
      BODY_FAT_PERCENTAGE_CONVERSION, hsq]

/-- Metrics map used in the witness of claim C3: chosen so that the height is
1 meter, making FFMI equal the lean mass 20 and, with 15 percent body fat,
BCI equal to 17, mirroring the claim example ffmi=20, fraction 0.15, BCI=17. -/
noncomputable def c3Metrics : List (String × ℝ) :=
  [("BodyMass", 24), ("BodyMassIndex", 24), ("LeanBodyMass", 20),
   ("BodyFatPercentage", 15)]

/-- C3, witness: the theorem applied at the concrete metrics map; the stored
values evaluate to FFMI = 20 and BCI = 17. -/
theorem derivedMetrics_spec_witness :
    (c3Metrics.lookup "BodyMass" = some 24 ∧ (24 : ℝ) ≠ 0 ∧
     c3Metrics.lookup "BodyMassIndex" = some 24 ∧
     c3Metrics.lookup "LeanBodyMass" = some 20 ∧ (20 : ℝ) ≠ 0 ∧
     c3Metrics.lookup "BodyFatPercentage" = some 15 ∧ (15 : ℝ) ≠ 0) ∧
    (derivedMetricsUpdate c3Metrics).lookup "FFMI" = some 20 ∧
    (derivedMetricsUpdate c3Metrics).lookup "BCI" = some 17 := by
  have hl1 : c3Metrics.lookup "BodyMass" = some 24 := by
    simp [c3Metrics, List.lookup]
  have hl2 : c3Metrics.lookup "BodyMassIndex" = some 24 := by
    simp [c3Metrics, List.lookup]
  have hl3 : c3Metrics.lookup "LeanBodyMass" = some 20 := by
    simp [c3Metrics, List.lookup]
  have hl4 : c3Metrics.lookup "BodyFatPercentage" = some 15 := by
    simp [c3Metrics, List.lookup]
  have h := derivedMetrics_spec c3Metrics 24 24 20 15 hl1 (by norm_num)
    hl2 (by norm_num) hl3 (by norm_num) hl4 (by norm_num)
  have hval : (20 : ℝ) / (Real.sqrt ((24:ℝ) / 24)) ^ 2 = 20 := by
    norm_num
  refine ⟨⟨hl1, by norm_num, hl2, hl3, by norm_num, hl4, by norm_num⟩, ?_, ?_⟩
  · rw [h.1, hval]
    norm_num [roundToTwoDecimalsR]
  · rw [h.2, hval]
    norm_num [roundToTwoDecimalsR]

/-! ## Step count file parser
(src/processors/health/parsers/metrics-merger.ts lines 99-136, the summing
`StepCountFileParser`) -/

/-- Embedding of the `CSVRecord` interface of the csv-reader: record type,
source name and the raw fields of the line. -/
structure CSVRecord where
  type : String
  sourceName : String
  fields : List String
deriving DecidableEq

/-- Raw field access `fields[i]` of a CSV record line. -/
def fieldAt (fields : List String) (i : ℕ) : String := (fields.get? i).getD ""

/-- Embedding of `ParserUtils.extractDate`
(src/processors/health/parsers/base.ts lines 41-44):
`dateString.split(/[T ]/)[0]`, the prefix before the first space or T. -/
def extractDate (dateString : String) : String :=
  String.mk (dateString.toList.takeWhile (fun c => !(c == 'T' || c == ' ')))

/-- Models `value.replace(/\r?\n/g, "")`: every carriage-return-newline pair
and every lone newline is removed. -/
def stripNewlines : List Char → List Char
  | [] => []
  | '\r' :: '\n' :: rest => stripNewlines rest
  | '\n' :: rest => stripNewlines rest
  | c :: rest => c :: stripNewlines rest

/-- JavaScript whitespace recognized by `String.prototype.trim`. -/
def isJSWhitespace (c : Char) : Bool :=
  c == ' ' || c == '\t' || c == '\n' || c == '\r' || c == '\x0b' || c == '\x0c'

/-- Models `String.prototype.trim`: leading and trailing whitespace removed. -/
def jsTrim (cs : List Char) : List Char :=
  ((cs.dropWhile isJSWhitespace).reverse.dropWhile isJSWhitespace).reverse

/-- Models `record.fields[8].replace(/\r?\n/g, "").trim()`. -/
def cleanValue (s : String) : String :=
  String.mk (jsTrim (stripNewlines s.toList))

/-- Per-day record with numeric metric values, as produced by the step-count
parser. -/
structure DailyMetricsQ where
  date : String
  metrics : List (String × ℚ)
deriving DecidableEq

/-- Loop body of the summing `StepCountFileParser.parseFile`. `parseFloat` is
passed as the parameter `pf`. Records with fewer than 9 fields or from a
source other than Zepp Life or Mi Fitness are skipped; for each accepted
record the running per-date total `(metrics.stepCount as number) ?? 0` plus
the parsed value is stored, rounded to two decimals after each addition. -/
def stepCountStep (pf : String → ℚ) (dm : List (String × DailyMetricsQ))
    (record : CSVRecord) : List (String × DailyMetricsQ) :=
  if record.fields.length < 9 then dm
  else if record.sourceName ≠ "Zepp Life" ∧ record.sourceName ≠ "Mi Fitness"
  then dm
  else
    let startDate := fieldAt record.fields 5
    let value := cleanValue (fieldAt record.fields 8)
    let dateKey := extractDate startDate
    let dm :=
      if (dm.lookup dateKey).isNone then setKey dm dateKey ⟨dateKey, []⟩
      else dm
    let e := (dm.lookup dateKey).getD ⟨dateKey, []⟩
    let currentSteps := (e.metrics.lookup "stepCount").getD 0
    setKey dm dateKey
      ⟨e.date, setKey e.metrics "stepCount"
        (roundToTwoDecimals (currentSteps + pf value))⟩

/-- Embedding of the summing `StepCountFileParser.parseFile`
(src/processors/health/parsers/metrics-merger.ts lines 104-135):
the record loop followed by `Object.values`, which returns the day records in
insertion order. -/
def stepCountParseFile (pf : String → ℚ) (records : List CSVRecord) :
    List DailyMetricsQ :=
  (records.foldl (stepCountStep pf) []).map Prod.snd

/-- Acceptance test of the summing step parser: at least 9 fields and an
allow-listed source. -/
def acceptedStepRecord (r : CSVRecord) : Bool :=
  !(r.fields.length < 9) &&
    (r.sourceName == "Zepp Life" || r.sourceName == "Mi Fitness")

/-- Parsed values of the accepted records of a given calendar date, in input
order. -/
def stepValuesFor (pf : String → ℚ) (d : String) (records : List CSVRecord) :
    List ℚ :=
  (records.filter
    (fun r => acceptedStepRecord r && (extractDate (fieldAt r.fields 5) == d))).map
    (fun r => pf (cleanValue (fieldAt r.fields 8)))

/-- Specification-side running sum: each value is added to the total and the
total is rounded to two decimal places after each addition. -/
def runningRoundedSum (vs : List ℚ) : ℚ :=
  vs.foldl (fun acc v => roundToTwoDecimals (acc + v)) 0

theorem runningRoundedSum_append (vs : List ℚ) (v : ℚ) :
    runningRoundedSum (vs ++ [v]) =
      roundToTwoDecimals (runningRoundedSum vs + v) := by
  simp [runningRoundedSum, List.foldl_append]

theorem stepValuesFor_cons (pf : String → ℚ) (d : String) (r : CSVRecord)
    (records : List CSVRecord) :
    stepValuesFor pf d (r :: records) =
      (if acceptedStepRecord r && (extractDate (fieldAt r.fields 5) == d)
       then [pf (cleanValue (fieldAt r.fields 8))] else []) ++
        stepValuesFor pf d records := by
  by_cases hc :
      acceptedStepRecord r = true ∧ extractDate (fieldAt r.fields 5) = d
  · simp [stepValuesFor, List.filter_cons, hc.1, hc.2]
  · rcases Decidable.not_and_iff_or_not.mp hc with h | h <;>
      simp [stepValuesFor, List.filter_cons, h, hc]

/-- Invariant of the step parser fold with respect to a per-date list `vs` of
values already folded in: the keys are distinct, every entry is keyed by its
own date, and the entry of a date exists exactly when values were seen for it,
holding the rounded running sum. -/
def stepFoldInv (dm : List (String × DailyMetricsQ)) (vs : String → List ℚ) :
    Prop :=
  (dm.map Prod.fst).Nodup ∧
  (∀ p ∈ dm, p.2.date = p.1) ∧
  (∀ d, match dm.lookup d with
        | none => vs d = []
        | some e =>
            vs d ≠ [] ∧ e.metrics = [("stepCount", runningRoundedSum (vs d))])

theorem stepCountStep_inv (pf : String → ℚ) (dm : List (String × DailyMetricsQ))
    (vs : String → List ℚ) (r : CSVRecord) (h : stepFoldInv dm vs) :
    stepFoldInv (stepCountStep pf dm r)
      (fun d => vs d ++ stepValuesFor pf d [r]) := by
  obtain ⟨hnd, hdate, hchar⟩ := h
  by_cases hacc : acceptedStepRecord r = true
  · have hlen : ¬(r.fields.length < 9) := by
      simp [acceptedStepRecord] at hacc
      omega
    have hsrc : ¬(r.sourceName ≠ "Zepp Life" ∧ r.sourceName ≠ "Mi Fitness") := by
      simp [acceptedStepRecord] at hacc
      rcases hacc.2 with h | h <;> simp [h]
    set dk := extractDate (fieldAt r.fields 5) with hdk
    set v := pf (cleanValue (fieldAt r.fields 8)) with hv
    have hvals : ∀ d, stepValuesFor pf d [r] = if dk = d then [v] else [] := by
      intro d
      rw [hdk, hv]
      by_cases hd : extractDate (fieldAt r.fields 5) = d
      · simp [stepValuesFor, List.filter_cons, hacc, hd]
      · simp [stepValuesFor, List.filter_cons, hacc, hd]
    -- the ensured map and its entry for dk
    set dm₁ :=
      (if (dm.lookup dk).isNone then setKey dm dk ⟨dk, []⟩ else dm) with hdm₁
    have hres : stepCountStep pf dm r =
        setKey dm₁ dk
          ⟨((dm₁.lookup dk).getD ⟨dk, []⟩).date,
           setKey ((dm₁.lookup dk).getD ⟨dk, []⟩).metrics "stepCount"
             (roundToTwoDecimals
               ((((dm₁.lookup dk).getD ⟨dk, []⟩).metrics.lookup "stepCount").getD 0
                 + v))⟩ := by
      rw [stepCountStep, if_neg hlen, if_neg hsrc]
    have hnd₁ : (dm₁.map Prod.fst).Nodup := by
      rw [hdm₁]
      split
      · exact nodup_keys_setKey dm dk _ hnd
      · exact hnd
    have hdate₁ : ∀ p ∈ dm₁, p.2.date = p.1 := by
      rw [hdm₁]
      split
      · intro p hp
        rcases mem_setKey hp with hp | hp
        · exact hdate p hp
        · rw [hp]
      · exact hdate
    -- characterize the entry at dk after ensuring
    rcases hdm : dm.lookup dk with _ | e0
    · -- no entry yet: vs dk = []
      have hvs : vs dk = [] := by
        have := hchar dk
        rw [hdm] at this
        exact this
      have hdm₁eq : dm₁ = setKey dm dk ⟨dk, []⟩ := by
        rw [hdm₁, hdm]
        rfl
      have hlook₁ : dm₁.lookup dk = some ⟨dk, []⟩ := by
        rw [hdm₁eq]
        exact lookup_setKey_self dm dk _
      refine ⟨?_, ?_, ?_⟩
      · rw [hres]
        exact nodup_keys_setKey _ dk _ hnd₁
      · rw [hres]
        intro p hp
        rcases mem_setKey hp with hp | hp
        · exact hdate₁ p hp
        · rw [hp, hlook₁]
          rfl
      · intro d
        by_cases hd : d = dk
        · subst hd
          rw [hres, lookup_setKey_self, hlook₁]
          constructor
          · simp [hvals, hvs]
          · simp only [hlook₁, Option.getD_some]
            simp [hvals, hvs, setKey, List.lookup, runningRoundedSum,
              roundToTwoDecimals]
        · have hlod : (stepCountStep pf dm r).lookup d = dm.lookup d := by
            rw [hres, lookup_setKey_other _ _ _ _ hd, hdm₁eq,
              lookup_setKey_other _ _ _ _ hd]
          rw [hlod]
          have := hchar d
          have hnil : stepValuesFor pf d [r] = [] := by
            rw [hvals d, if_neg (fun hc => hd hc.symm)]
          rcases hld : dm.lookup d with _ | e
          · rw [hld] at this
            simp [this, hnil]
          · rw [hld] at this
            simpa [hnil] using this
    · -- entry exists: dm₁ = dm
      have hdm₁eq : dm₁ = dm := by
        rw [hdm₁, hdm]
        rfl
      have hvs := hchar dk
      rw [hdm] at hvs
      have he0date : e0.date = dk := hdate (dk, e0) (mem_of_lookup_eq_some hdm)
      have hlook₁ : dm₁.lookup dk = some e0 := by rw [hdm₁eq, hdm]
      refine ⟨?_, ?_, ?_⟩
      · rw [hres]
        exact nodup_keys_setKey _ dk _ hnd₁
      · rw [hres]
        intro p hp
        rcases mem_setKey hp with hp | hp
        · exact hdate₁ p hp
        · rw [hp, hlook₁]
          simpa using he0date
      · intro d
        by_cases hd : d = dk
        · subst hd
          rw [hres, lookup_setKey_self, hlook₁]
          simp only [Option.getD_some]
          constructor
          · simp [hvals]
          · rw [hvs.2]
            simp only [List.lookup, beq_self_eq_true, Option.getD_some]
            rw [hvals dk, if_pos rfl, runningRoundedSum_append]
            rfl
        · have hlod : (stepCountStep pf dm r).lookup d = dm.lookup d := by
            rw [hres, lookup_setKey_other _ _ _ _ hd, hdm₁eq]
          rw [hlod]
          have := hchar d
          have hnil : stepValuesFor pf d [r] = [] := by
            rw [hvals d, if_neg (fun hc => hd hc.symm)]
          rcases hld : dm.lookup d with _ | e
          · rw [hld] at this
            simp [this, hnil]
          · rw [hld] at this
            simpa [hnil] using this
  · -- rejected record: the map and the per-date values are unchanged
    have hnil : ∀ d, stepValuesFor pf d [r] = [] := by
      intro d
      rw [Bool.not_eq_true] at hacc
      simp [stepValuesFor, List.filter_cons, hacc]
    have hres : stepCountStep pf dm r = dm := by
      rw [stepCountStep]
      simp only [acceptedStepRecord, Bool.and_eq_true, Bool.or_eq_true,
        beq_iff_eq, Bool.not_eq_true'] at hacc
      by_cases hlen : r.fields.length < 9
      · rw [if_pos hlen]
      · rw [if_neg hlen]
        have hsrc : r.sourceName ≠ "Zepp Life" ∧ r.sourceName ≠ "Mi Fitness" := by
          rcases Decidable.not_and_iff_or_not.mp hacc with h | h
          · exact absurd (by simpa using hlen) (by simpa using h)
          · constructor <;> intro hc <;> exact h (by simp [hc])
        rw [if_pos hsrc]
    rw [hres]
    refine ⟨hnd, hdate, ?_⟩
    intro d
    have := hchar d
    rcases hld : dm.lookup d with _ | e <;> rw [hld] at this <;>
      simp [this, hnil d]

theorem stepFold_inv (pf : String → ℚ) (records : List CSVRecord) :
    ∀ (dm : List (String × DailyMetricsQ)) (vs : String → List ℚ),
      stepFoldInv dm vs →
      stepFoldInv (records.foldl (stepCountStep pf) dm)
        (fun d => vs d ++ stepValuesFor pf d records) := by
  induction records with
  | nil =>
      intro dm vs h
      simpa [stepValuesFor] using h
  | cons r rest ih =>
      intro dm vs h
      have hstep := stepCountStep_inv pf dm vs r h
      have := ih (stepCountStep pf dm r) _ hstep
      have heq : (fun d => (vs d ++ stepValuesFor pf d [r]) ++ stepValuesFor pf d rest) =
          fun d => vs d ++ stepValuesFor pf d (r :: rest) := by
        funext d
        rw [stepValuesFor_cons pf d r rest, List.append_assoc]
        congr 1
        simp only [stepValuesFor, List.filter_cons]
        split <;> simp
      rw [heq] at this
      simpa using this

/-! ## Claim C4: step counts are summed per date -/

/-- Models the unchecked TypeScript cast `record.value as number` of
`calculateTotalSteps`: the pipeline only feeds numeric values here, and the
theorems carry that as a hypothesis, so the string branch is never
exercised. -/
def jsValueAsNumber : JSVal → ℚ
  | .num q => q
  | .str _ => 0

/-- Embedding of `HealthProcessor.calculateTotalSteps`
(src/processors/health.ts lines 535-545): `null` on empty data, otherwise
`Math.round` of the plain reduce-sum of the record values — ONE rounding of
the final total to the nearest whole number, with no per-addition two-decimal
rounding. -/
def calculateTotalSteps (stepData : List HealthRecord) : Option ℚ :=
  if stepData.length = 0 then none
  else
    some ((jsRound
      (stepData.foldl (fun acc record => acc + jsValueAsNumber record.value) 0)
        : ℤ) : ℚ)

theorem foldl_add_jsValueAsNumber (stepData : List HealthRecord) :
    ∀ (vs : List ℚ) (acc : ℚ),
      stepData.map (fun r => r.value) = vs.map JSVal.num →
      stepData.foldl (fun acc record => acc + jsValueAsNumber record.value) acc =
        acc + vs.sum := by
  induction stepData with
  | nil =>
      intro vs acc h
      cases vs with
      | nil => simp
      | cons v vt => simp at h
  | cons r rest ih =>
      intro vs acc h
      cases vs with
      | nil => simp at h
      | cons v vt =>
          simp only [List.map_cons, List.cons.injEq] at h
          obtain ⟨hv, ht⟩ := h
          simp only [List.foldl_cons]
          rw [ih vt _ ht]
          rw [show jsValueAsNumber r.value = v by rw [hv]; rfl]
          rw [List.sum_cons]
          ring

/-- Per-date refinement of the summing `StepCountFileParser`: for every input
record list and every calendar date with at least one accepted record, the
parser output contains exactly one day record for that date, and its stored
step count is the running sum of all the accepted records on that date, the
total rounded to two decimal places after each addition. -/
theorem stepCount_sums_per_date (pf : String → ℚ) (records : List CSVRecord)
    (d : String) (hne : stepValuesFor pf d records ≠ []) :
    ∃ e ∈ stepCountParseFile pf records,
      e.date = d ∧
      e.metrics = [("stepCount", runningRoundedSum (stepValuesFor pf d records))] ∧
      ∀ e2 ∈ stepCountParseFile pf records, e2.date = d → e2 = e := by
  have h0 : stepFoldInv [] (fun _ => []) := by
    refine ⟨by simp, by simp, ?_⟩
    intro d
    simp [List.lookup]
  have hinv := stepFold_inv pf records [] (fun _ => []) h0
  simp only [List.nil_append] at hinv
  obtain ⟨hnd, hdate, hchar⟩ := hinv
  have hc := hchar d
  rcases hdm : (records.foldl (stepCountStep pf) []).lookup d with _ | e
  · rw [hdm] at hc
    exact absurd hc hne
  · rw [hdm] at hc
    refine ⟨e, ?_, ?_, hc.2, ?_⟩
    · exact List.mem_map.mpr ⟨(d, e), mem_of_lookup_eq_some hdm, rfl⟩
    · exact hdate (d, e) (mem_of_lookup_eq_some hdm)
    · intro e2 he2 hd2
      obtain ⟨p, hp, hpe⟩ := List.mem_map.mp he2
      have hkey : p.1 = d := by
        rw [← hd2, ← hpe]
        exact (hdate p hp).symm
      have hpair : (d, e2) ∈ records.foldl (stepCountStep pf) [] := by
        have : p = (d, e2) := by
          obtain ⟨k, e3⟩ := p
          simp only at hpe hkey
          rw [hpe, hkey]
        rw [← this]
        exact hp
      have := lookup_eq_of_mem_nodup hnd hpair
      rw [hdm] at this
      injection this with hval
      exact hval.symm

/-- Model of `parseFloat` on the two concrete value strings used in the C4
witness. -/
def c4pf : String → ℚ :=
  fun s => if s = "100" then 100 else if s = "201" then 201 else 0

/-- Two accepted step-count records on the same calendar date, from the two
allow-listed sources, with values 100 and 201. -/
def c4records : List CSVRecord :=
  [{ type := "HKQuantityTypeIdentifierStepCount", sourceName := "Zepp Life",
     fields := ["HKQuantityTypeIdentifierStepCount", "Zepp Life", "1", "d",
                "count", "2025-08-17 08:00:00 +0000", "2025-08-17 08:05:00 +0000",
                "count", "100"] },
   { type := "HKQuantityTypeIdentifierStepCount", sourceName := "Mi Fitness",
     fields := ["HKQuantityTypeIdentifierStepCount", "Mi Fitness", "1", "d",
                "count", "2025-08-17 09:00:00 +0000", "2025-08-17 09:05:00 +0000",
                "count", "201"] }]

/-- Step record carrying a numeric value, as the step parsers produce. -/
def mkStepRecord (q : ℚ) : HealthRecord :=
  { date := "2025-08-17", type := "HKQuantityTypeIdentifierStepCount",
    value := .num q, unit := some "count" }

/-- C4, counterexample. The claim states that for every cited step-count
aggregation the stored value carries the running total rounded to TWO DECIMAL
places after each addition. On the cited `HealthProcessor.calculateTotalSteps`
(src/processors/health.ts lines 535-545) two same-date records with values
0.5 and 0.25 store `Math.round(0.75) = 1`, not the claimed two-decimal running
sum `0.75`. -/
theorem calculateTotalSteps_whole_rounding_counterexample :
    calculateTotalSteps [mkStepRecord (1/2), mkStepRecord (1/4)] = some 1 ∧
    runningRoundedSum [1/2, 1/4] = 3/4 ∧
    (1 : ℚ) ≠ 3/4 := by
  refine ⟨?_, ?_, by norm_num⟩
  · norm_num [calculateTotalSteps, mkStepRecord, jsValueAsNumber, jsRound]
  · norm_num [runningRoundedSum, roundToTwoDecimals, jsRound]

/-- C4, amended. Multiple accepted-source records on the same calendar date
are SUMMED, not overwritten, in both cited aggregation paths, but the
roundings differ: the summing `StepCountFileParser` stores the running total
rounded to two decimal places after each addition (first conjunct, exactly
one output record per date), while `HealthProcessor.calculateTotalSteps`
stores the plain sum of the values rounded once to the nearest whole number
(second conjunct). -/
theorem stepCount_sums_not_last (pf : String → ℚ) (records : List CSVRecord)
    (d : String) (hne : stepValuesFor pf d records ≠ [])
    (stepData : List HealthRecord) (vs : List ℚ) (hne2 : stepData ≠ [])
    (hvals : stepData.map (fun r => r.value) = vs.map JSVal.num) :
    (∃ e ∈ stepCountParseFile pf records,
      e.date = d ∧
      e.metrics = [("stepCount", runningRoundedSum (stepValuesFor pf d records))] ∧
      ∀ e2 ∈ stepCountParseFile pf records, e2.date = d → e2 = e) ∧
    calculateTotalSteps stepData = some ((jsRound vs.sum : ℤ) : ℚ) := by
  refine ⟨stepCount_sums_per_date pf records d hne, ?_⟩
  have hlen : ¬stepData.length = 0 := by
    intro hc
    exact hne2 (List.length_eq_zero.mp hc)
  rw [calculateTotalSteps, if_neg hlen, foldl_add_jsValueAsNumber stepData vs 0 hvals,
    zero_add]

/-- Step records of the C4 witness for `calculateTotalSteps`: numeric values
100 and 201 on one date. -/
def c4stepData : List HealthRecord := [mkStepRecord 100, mkStepRecord 201]

/-- C4, witness: the amended theorem applied at two same-date records per
path; in both paths the stored value is the sum 301 of the two values, not
the last value 201. -/
theorem stepCount_sums_not_last_witness :
    (stepValuesFor c4pf "2025-08-17" c4records ≠ [] ∧
     c4stepData ≠ [] ∧
     c4stepData.map (fun r => r.value) = [(100 : ℚ), 201].map JSVal.num) ∧
    ((∃ e ∈ stepCountParseFile c4pf c4records,
      e.date = "2025-08-17" ∧
      e.metrics = [("stepCount",
        runningRoundedSum (stepValuesFor c4pf "2025-08-17" c4records))] ∧
      ∀ e2 ∈ stepCountParseFile c4pf c4records,
        e2.date = "2025-08-17" → e2 = e) ∧
     calculateTotalSteps c4stepData =
       some ((jsRound (List.sum [(100 : ℚ), 201]) : ℤ) : ℚ)) ∧
    runningRoundedSum (stepValuesFor c4pf "2025-08-17" c4records) = 301 ∧
    ((jsRound (List.sum [(100 : ℚ), 201]) : ℤ) : ℚ) = 301 := by
  have hvals : stepValuesFor c4pf "2025-08-17" c4records = [100, 201] := by
    simp +decide [stepValuesFor, c4records, c4pf, acceptedStepRecord,
      extractDate, fieldAt, cleanValue, stripNewlines, jsTrim, isJSWhitespace,
      List.filter]
  have hne : stepValuesFor c4pf "2025-08-17" c4records ≠ [] := by
    rw [hvals]
    simp
  have hne2 : c4stepData ≠ [] := by simp [c4stepData]
  have hmap : c4stepData.map (fun r => r.value) = [(100 : ℚ), 201].map JSVal.num := by
    simp [c4stepData, mkStepRecord]
  refine ⟨⟨hne, hne2, hmap⟩,
    stepCount_sums_not_last c4pf c4records "2025-08-17" hne c4stepData
      [(100 : ℚ), 201] hne2 hmap, ?_, ?_⟩
  · rw [hvals]
    norm_num [runningRoundedSum, roundToTwoDecimals, jsRound]
  · norm_num [jsRound]

/-! ## Heart rate file parser
(src/processors/health/parsers/heart-rate-file-parser.ts lines 5-51) -/

/-- Per-date accumulator of the heart-rate parser: the collected values and
the unit recorded when the entry was created (the first record's unit). -/
structure HRDay where
  values : List ℚ
  unit : String
deriving DecidableEq

/-- Value-with-unit pair as emitted for average, max and min. -/
structure HeartRateEntry where
  value : ℚ
  unit : String
deriving DecidableEq

/-- The `heartRate` metric object: average, max and min, each with a unit. -/
structure HeartRateSummary where
  average : HeartRateEntry
  max : HeartRateEntry
  min : HeartRateEntry
deriving DecidableEq

/-- Day record emitted by the heart-rate parser. -/
structure DailyMetricsHR where
  date : String
  heartRate : HeartRateSummary
deriving DecidableEq

/-- JavaScript `Math.max(...values)` on a value list; the empty case (which
would give negative infinity) is unreachable because every accumulator entry
holds at least one value. -/
def jsMaxList : List ℚ → ℚ
  | [] => 0
  | h :: t => t.foldl max h

/-- JavaScript `Math.min(...values)` on a value list; empty case unreachable
as for `jsMaxList`. -/
def jsMinList : List ℚ → ℚ
  | [] => 0
  | h :: t => t.foldl min h

/-- Loop body of `HeartRateFileParser.parseFile`: skip records with fewer
than 9 fields; group `parseFloat` of the cleaned value field by calendar
date, keeping the unit seen when the date entry was created. -/
def heartRateStep (pf : String → ℚ) (dd : List (String × HRDay))
    (record : CSVRecord) : List (String × HRDay) :=
  if record.fields.length < 9 then dd
  else
    let unit := fieldAt record.fields 7
    let value := cleanValue (fieldAt record.fields 8)
    let dateKey := extractDate (fieldAt record.fields 5)
    let dd :=
      if (dd.lookup dateKey).isNone then setKey dd dateKey ⟨[], unit⟩ else dd
    let e := (dd.lookup dateKey).getD ⟨[], unit⟩
    setKey dd dateKey ⟨e.values ++ [pf value], e.unit⟩

/-- Embedding of `HeartRateFileParser.parseFile`: the record loop followed by
`Object.entries`, emitting for every date the average, max and min of its
values, each rounded to two decimal places and tagged with the unit. -/
def heartRateParseFile (pf : String → ℚ) (records : List CSVRecord) :
    List DailyMetricsHR :=
  (records.foldl (heartRateStep pf) []).map
    (fun p =>
      { date := p.1,
        heartRate :=
          { average := ⟨roundToTwoDecimals
              (p.2.values.foldl (· + ·) 0 / (p.2.values.length : ℚ)), p.2.unit⟩,
            max := ⟨roundToTwoDecimals (jsMaxList p.2.values), p.2.unit⟩,
            min := ⟨roundToTwoDecimals (jsMinList p.2.values), p.2.unit⟩ } })

/-- Heart-rate values of the valid records of a given date, in input order. -/
def heartValuesFor (pf : String → ℚ) (d : String) (records : List CSVRecord) :
    List ℚ :=
  (records.filter
    (fun r => !(r.fields.length < 9 : Bool) && (extractDate (fieldAt r.fields 5) == d))).map
    (fun r => pf (cleanValue (fieldAt r.fields 8)))

/-- Invariant of the heart-rate fold at one date `d`: distinct keys, and the
entry of `d` exists exactly when values were seen, holding those values in
order and the unit `u`. -/
def hrFoldInv (d : String) (u : String) (dd : List (String × HRDay))
    (vs : List ℚ) : Prop :=
  (dd.map Prod.fst).Nodup ∧
  (match dd.lookup d with
   | none => vs = []
   | some e => vs ≠ [] ∧ e.values = vs ∧ e.unit = u)

theorem heartRateStep_inv (pf : String → ℚ) (d u : String)
    (dd : List (String × HRDay)) (vs : List ℚ) (r : CSVRecord)
    (hu : ¬(r.fields.length < 9) → extractDate (fieldAt r.fields 5) = d →
      fieldAt r.fields 7 = u)
    (h : hrFoldInv d u dd vs) :
    hrFoldInv d u (heartRateStep pf dd r)
      (vs ++ heartValuesFor pf d [r]) := by
  obtain ⟨hnd, hchar⟩ := h
  by_cases hlen : r.fields.length < 9
  · have hres : heartRateStep pf dd r = dd := by rw [heartRateStep, if_pos hlen]
    have hnil : heartValuesFor pf d [r] = [] := by
      simp [heartValuesFor, List.filter_cons, hlen]
    rw [hres, hnil, List.append_nil]
    exact ⟨hnd, hchar⟩
  · set dk := extractDate (fieldAt r.fields 5) with hdk
    set v := pf (cleanValue (fieldAt r.fields 8)) with hv
    set ur := fieldAt r.fields 7 with hur
    have hres : heartRateStep pf dd r =
        setKey (if (dd.lookup dk).isNone then setKey dd dk ⟨[], ur⟩ else dd) dk
          ⟨(((if (dd.lookup dk).isNone then setKey dd dk ⟨[], ur⟩ else dd).lookup
              dk).getD ⟨[], ur⟩).values ++ [v],
           (((if (dd.lookup dk).isNone then setKey dd dk ⟨[], ur⟩ else dd).lookup
              dk).getD ⟨[], ur⟩).unit⟩ := by
      rw [heartRateStep, if_neg hlen]
    have hvals : heartValuesFor pf d [r] = if dk = d then [v] else [] := by
      rw [hdk, hv]
      by_cases hd : extractDate (fieldAt r.fields 5) = d
      · simp [heartValuesFor, List.filter_cons, hlen, hd]
      · simp [heartValuesFor, List.filter_cons, hlen, hd]
    set dd₁ := (if (dd.lookup dk).isNone then setKey dd dk ⟨[], ur⟩ else dd)
      with hdd₁
    have hnd₁ : (dd₁.map Prod.fst).Nodup := by
      rw [hdd₁]
      split
      · exact nodup_keys_setKey dd dk _ hnd
      · exact hnd
    refine ⟨?_, ?_⟩
    · rw [hres]
      exact nodup_keys_setKey _ dk _ hnd₁
    · by_cases hd : dk = d
      · subst hd
        have huu : ur = u := hu hlen rfl
        rw [hres, lookup_setKey_self, hvals, if_pos rfl]
        rcases hdm : dd.lookup dk with _ | e0
        · have hvs : vs = [] := by
            have := hchar
            rw [hdm] at this
            exact this
          have hdd₁eq : dd₁ = setKey dd dk ⟨[], ur⟩ := by rw [hdd₁, hdm]; rfl
          have hlook₁ : dd₁.lookup dk = some ⟨[], ur⟩ := by
            rw [hdd₁eq]; exact lookup_setKey_self dd dk _
          rw [hlook₁]
          refine ⟨by simp [hvs], by simp [hvs], by simpa using huu⟩
        · have hc := hchar
          rw [hdm] at hc
          have hdd₁eq : dd₁ = dd := by rw [hdd₁, hdm]; rfl
          have hlook₁ : dd₁.lookup dk = some e0 := by rw [hdd₁eq, hdm]
          rw [hlook₁]
          refine ⟨by simp [hc.1], by simp [hc.2.1], by simpa using hc.2.2⟩
      · have hlod : (heartRateStep pf dd r).lookup d = dd.lookup d := by
          rw [hres, lookup_setKey_other _ _ _ _ (fun hc => hd hc.symm), hdd₁]
          split
          · exact lookup_setKey_other _ _ _ _ (fun hc => hd hc.symm)
          · rfl
        rw [hlod, hvals, if_neg hd, List.append_nil]
        exact hchar

theorem hrFold_inv (pf : String → ℚ) (d u : String) (records : List CSVRecord) :
    ∀ (dd : List (String × HRDay)) (vs : List ℚ),
      (∀ r ∈ records, ¬(r.fields.length < 9) →
        extractDate (fieldAt r.fields 5) = d → fieldAt r.fields 7 = u) →
      hrFoldInv d u dd vs →
      hrFoldInv d u (records.foldl (heartRateStep pf) dd)
        (vs ++ heartValuesFor pf d records) := by
  induction records with
  | nil =>
      intro dd vs _ h
      simpa [heartValuesFor] using h
  | cons r rest ih =>
      intro dd vs hu h
      have hstep := heartRateStep_inv pf d u dd vs r
        (hu r (by simp)) h
      have := ih (heartRateStep pf dd r) _
        (fun x hx => hu x (by simp [hx])) hstep
      have heq : (vs ++ heartValuesFor pf d [r]) ++ heartValuesFor pf d rest =
          vs ++ heartValuesFor pf d (r :: rest) := by
        rw [List.append_assoc]
        congr 1
        by_cases hc :
            (!(r.fields.length < 9 : Bool) &&
              (extractDate (fieldAt r.fields 5) == d)) = true
        · simp only [heartValuesFor, List.filter_cons, hc]
          simp
        · rw [Bool.not_eq_true] at hc
          simp only [heartValuesFor, List.filter_cons, hc]
          simp
      rw [heq] at this
      exact this

/-! ## Claim C6: per-date heart-rate average, max, min -/

/-- C6. For every record list and every date with a nonempty list of valid
heart-rate records, all sharing the source unit `u`, the parser emits exactly
one day record for that date, holding the average, the max and the min of the
values of that date, each rounded to two decimal places and tagged with `u`. -/
theorem heartRate_emits_avg_max_min (pf : String → ℚ)
    (records : List CSVRecord) (d u : String)
    (hne : heartValuesFor pf d records ≠ [])
    (hu : ∀ r ∈ records, ¬(r.fields.length < 9) →
      extractDate (fieldAt r.fields 5) = d → fieldAt r.fields 7 = u) :
    ∃ m ∈ heartRateParseFile pf records,
      m.date = d ∧
      m.heartRate.average = ⟨roundToTwoDecimals
        ((heartValuesFor pf d records).foldl (· + ·) 0 /
          ((heartValuesFor pf d records).length : ℚ)), u⟩ ∧
      m.heartRate.max =
        ⟨roundToTwoDecimals (jsMaxList (heartValuesFor pf d records)), u⟩ ∧
      m.heartRate.min =
        ⟨roundToTwoDecimals (jsMinList (heartValuesFor pf d records)), u⟩ ∧
      ∀ m2 ∈ heartRateParseFile pf records, m2.date = d → m2 = m := by
  have h0 : hrFoldInv d u [] [] := ⟨by simp, by simp [List.lookup]⟩
  have hinv := hrFold_inv pf d u records [] [] hu h0
  simp only [List.nil_append] at hinv
  obtain ⟨hnd, hchar⟩ := hinv
  rcases hdm : (records.foldl (heartRateStep pf) []).lookup d with _ | e
  · rw [hdm] at hchar
    exact absurd hchar hne
  · rw [hdm] at hchar
    obtain ⟨-, hevals, heunit⟩ := hchar
    refine ⟨_, List.mem_map.mpr ⟨(d, e), mem_of_lookup_eq_some hdm, rfl⟩,
      rfl, ?_, ?_, ?_, ?_⟩
    · simp [hevals, heunit]
    · simp [hevals, heunit]
    · simp [hevals, heunit]
    · intro m2 hm2 hd2
      obtain ⟨p, hp, hpe⟩ := List.mem_map.mp hm2
      have hkey : p.1 = d := by
        rw [← hd2, ← hpe]
      have hpair : (d, p.2) ∈ records.foldl (heartRateStep pf) [] := by
        rw [← hkey]
        exact hp
      have hl := lookup_eq_of_mem_nodup hnd hpair
      rw [hdm] at hl
      injection hl with hval
      rw [← hpe, hval]
      simp [hkey]

/-- Model of `parseFloat` on the value strings of the C6 witness. -/
def c6pf : String → ℚ :=
  fun s => if s = "70" then 70 else if s = "85" then 85 else 0

/-- Two valid heart-rate records on one date with unit count/min and values
70 and 85. -/
def c6records : List CSVRecord :=
  [{ type := "HKQuantityTypeIdentifierHeartRate", sourceName := "Apple Watch",
     fields := ["HKQuantityTypeIdentifierHeartRate", "Apple Watch", "7.0", "w",
                "count/min", "2025-08-17 08:00:00 +0000",
                "2025-08-17 08:00:00 +0000", "count/min", "70"] },
   { type := "HKQuantityTypeIdentifierHeartRate", sourceName := "Apple Watch",
     fields := ["HKQuantityTypeIdentifierHeartRate", "Apple Watch", "7.0", "w",
                "count/min", "2025-08-17 09:00:00 +0000",
                "2025-08-17 09:00:00 +0000", "count/min", "85"] }]

/-- C6, witness: the theorem applied at two concrete records of one date;
the emitted values evaluate to average 77.5, max 85 and min 70, each tagged
count/min. -/
theorem heartRate_emits_avg_max_min_witness :
    heartValuesFor c6pf "2025-08-17" c6records ≠ [] ∧
    (∀ r ∈ c6records, ¬(r.fields.length < 9) →
      extractDate (fieldAt r.fields 5) = "2025-08-17" →
      fieldAt r.fields 7 = "count/min") ∧
    (∃ m ∈ heartRateParseFile c6pf c6records,
      m.date = "2025-08-17" ∧
      m.heartRate.average = ⟨roundToTwoDecimals
        ((heartValuesFor c6pf "2025-08-17" c6records).foldl (· + ·) 0 /
          ((heartValuesFor c6pf "2025-08-17" c6records).length : ℚ)),
        "count/min"⟩ ∧
      m.heartRate.max = ⟨roundToTwoDecimals
        (jsMaxList (heartValuesFor c6pf "2025-08-17" c6records)), "count/min"⟩ ∧
      m.heartRate.min = ⟨roundToTwoDecimals
        (jsMinList (heartValuesFor c6pf "2025-08-17" c6records)), "count/min"⟩ ∧
      ∀ m2 ∈ heartRateParseFile c6pf c6records,
        m2.date = "2025-08-17" → m2 = m) ∧
    roundToTwoDecimals
        ((heartValuesFor c6pf "2025-08-17" c6records).foldl (· + ·) 0 /
          ((heartValuesFor c6pf "2025-08-17" c6records).length : ℚ)) = 155/2 ∧
    roundToTwoDecimals
        (jsMaxList (heartValuesFor c6pf "2025-08-17" c6records)) = 85 ∧
    roundToTwoDecimals
        (jsMinList (heartValuesFor c6pf "2025-08-17" c6records)) = 70 := by
  have hvals : heartValuesFor c6pf "2025-08-17" c6records = [70, 85] := by
    simp +decide [heartValuesFor, c6records, c6pf, extractDate, fieldAt,
      cleanValue, stripNewlines, jsTrim, isJSWhitespace, List.filter]
  have hne : heartValuesFor c6pf "2025-08-17" c6records ≠ [] := by
    rw [hvals]; simp
  have hu : ∀ r ∈ c6records, ¬(r.fields.length < 9) →
      extractDate (fieldAt r.fields 5) = "2025-08-17" →
      fieldAt r.fields 7 = "count/min" := by decide
  refine ⟨hne, hu,
    heartRate_emits_avg_max_min c6pf c6records "2025-08-17" "count/min" hne hu,
    ?_, ?_, ?_⟩
  · rw [hvals]
    norm_num [roundToTwoDecimals, jsRound]
  · rw [hvals]
    norm_num [roundToTwoDecimals, jsRound, jsMaxList]
  · rw [hvals]
    norm_num [roundToTwoDecimals, jsRound, jsMinList]

/-! ## Metrics merger
(src/processors/health/parsers/metrics-merger.ts lines 12-58)

The merger is generic in the metric value type and the exercise type; JS
objects cannot hold duplicate keys, so input metric maps are assumed
duplicate-free where needed. `localeCompare` on date strings is modelled by
the lexicographic order on `String`, and `Array.prototype.sort` by the stable
`List.insertionSort`. -/

/-- Embedding of the `DailyMetrics` shape consumed by the merger. -/
structure DayRec (α ε : Type) where
  date : String
  metrics : List (String × α)
  exercises : Option (List ε)
  description : Option String
deriving DecidableEq

/-- JavaScript object spread `{ ...old, ...new }`: the keys of `old` in order
with values overridden by `new` where present, followed by the keys of `new`
not present in `old`, in order. -/
def mergeSpread {α : Type} (old new : List (String × α)) : List (String × α) :=
  old.map (fun p => (p.1, (new.lookup p.1).getD p.2)) ++
    new.filter (fun p => (old.lookup p.1).isNone)

/-- One iteration of `MetricsMerger.flatMerge`: initialize the date entry on
first sight (a shallow copy of the incoming record), otherwise spread-merge
the metrics, concatenate exercises when the newer record has any, and
overwrite the description only with a truthy (nonempty) one. -/
def flatMergeStep {α ε : Type} (acc : List (String × DayRec α ε))
    (dm : DayRec α ε) : List (String × DayRec α ε) :=
  match acc.lookup dm.date with
  | none =>
      setKey acc dm.date
        ⟨dm.date, dm.metrics, dm.exercises, dm.description⟩
  | some ex =>
      setKey acc dm.date
        ⟨ex.date,
         mergeSpread ex.metrics dm.metrics,
         (match dm.exercises with
          | none => ex.exercises
          | some newEx =>
              match ex.exercises with
              | some oldEx => some (oldEx ++ newEx)
              | none => some newEx),
         (match dm.description with
          | some s => if s ≠ "" then some s else ex.description
          | none => ex.description)⟩

/-- Embedding of `MetricsMerger.flatMerge`: fold every record of every parser
output into the by-date map, then return `Object.values` sorted ascending by
date string. -/
def flatMerge {α ε : Type} [DecidableEq α] [DecidableEq ε]
    (metricsSets : List (List (DayRec α ε))) : List (DayRec α ε) :=
  let mergedByDate :=
    metricsSets.foldl (fun acc set => set.foldl flatMergeStep acc) []
  (mergedByDate.map Prod.snd).insertionSort (fun a b => a.date ≤ b.date)

/-- Specification-side value of a metric key for a date: the value supplied by
the LAST record (in the flattened supplied order) of that date that defines
the key, if any. -/
def lastMetricValue {α ε : Type} (dms : List (DayRec α ε)) (d k : String) :
    Option α :=
  (dms.filter (fun dm => dm.date = d)).foldl
    (fun acc dm =>
      match dm.metrics.lookup k with
      | some v => some v
      | none => acc)
    none

theorem lookup_append {α : Type} (l₁ l₂ : List (String × α)) (k : String) :
    (l₁ ++ l₂).lookup k =
      match l₁.lookup k with
      | some v => some v
      | none => l₂.lookup k := by
  induction l₁ with
  | nil => simp [List.lookup]
  | cons p rest ih =>
      obtain ⟨k₀, v₀⟩ := p
      by_cases h : k = k₀
      · subst h
        simp [List.lookup]
      · have : (k == k₀) = false := by simp [beq_iff_eq]; exact h
        simp [List.lookup, this, ih]

theorem lookup_map_values {α : Type} (l : List (String × α))
    (f : String → α → α) (k : String) :
    (l.map (fun p => (p.1, f p.1 p.2))).lookup k =
      (l.lookup k).map (f k) := by
  induction l with
  | nil => simp [List.lookup]
  | cons p rest ih =>
      obtain ⟨k₀, v₀⟩ := p
      by_cases h : k = k₀
      · subst h
        simp [List.lookup]
      · have : (k == k₀) = false := by simp [beq_iff_eq]; exact h
        simp [List.lookup, this, ih]

theorem lookup_filter_isNone {α : Type} (old n : List (String × α)) (k : String)
    (h : old.lookup k = none) :
    (n.filter (fun p => (old.lookup p.1).isNone)).lookup k = n.lookup k := by
  induction n with
  | nil => simp
  | cons p rest ih =>
      obtain ⟨k₀, v₀⟩ := p
      by_cases hk : k = k₀
      · subst hk
        simp [List.filter_cons, h, List.lookup]
      · have hbeq : (k == k₀) = false := by simp [beq_iff_eq]; exact hk
        by_cases hp : (old.lookup k₀).isNone = true
        · simp [List.filter_cons, hp, List.lookup, hbeq, ih]
        · simp [List.filter_cons, hp, List.lookup, hbeq, ih]

theorem mergeSpread_lookup {α : Type} (old n : List (String × α)) (k : String) :
    (mergeSpread old n).lookup k =
      match n.lookup k with
      | some v => some v
      | none => old.lookup k := by
  rw [mergeSpread, lookup_append]
  have hmap := lookup_map_values old (fun k₁ v₁ => (n.lookup k₁).getD v₁) k
  rcases ho : old.lookup k with _ | v
  · rw [hmap, ho]
    simp only [Option.map_none']
    rw [lookup_filter_isNone old n k ho]
    rcases n.lookup k with _ | w <;> rfl
  · rw [hmap, ho]
    simp only [Option.map_some']
    rcases n.lookup k with _ | w <;> rfl

theorem keys_mergeSpread {α : Type} (old n : List (String × α)) :
    (mergeSpread old n).map Prod.fst =
      old.map Prod.fst ++
        (n.filter (fun p => (old.lookup p.1).isNone)).map Prod.fst := by
  simp [mergeSpread]

theorem nodup_keys_mergeSpread {α : Type} (old n : List (String × α))
    (ho : (old.map Prod.fst).Nodup) (hn : (n.map Prod.fst).Nodup) :
    ((mergeSpread old n).map Prod.fst).Nodup := by
  rw [keys_mergeSpread]
  rw [List.nodup_append]
  refine ⟨ho, ?_, ?_⟩
  · exact (List.filter_sublist n).map Prod.fst |>.nodup hn
  · intro a ha hb
    obtain ⟨p, hp, hpe⟩ := List.mem_map.mp hb
    have hnone : (old.lookup p.1).isNone = true := by
      simpa using (List.mem_filter.mp hp).2
    rw [hpe] at hnone
    have : old.lookup a = none := Option.isNone_iff_eq_none.mp hnone
    exact ((lookup_eq_none_iff old a).mp this) ha

theorem lastMetricValue_append_single {α ε : Type} (dms : List (DayRec α ε))
    (dm : DayRec α ε) (d k : String) :
    lastMetricValue (dms ++ [dm]) d k =
      if dm.date = d then
        match dm.metrics.lookup k with
        | some v => some v
        | none => lastMetricValue dms d k
      else lastMetricValue dms d k := by
  by_cases hd : dm.date = d
  · simp [lastMetricValue, List.filter_append, List.foldl_append,
      List.filter_cons, hd]
  · simp [lastMetricValue, List.filter_append, List.foldl_append,
      List.filter_cons, hd]

theorem lastMetricValue_of_not_mem {α ε : Type} (dms : List (DayRec α ε))
    (d k : String) (h : d ∉ dms.map (fun dm => dm.date)) :
    lastMetricValue dms d k = none := by
  have hfil : dms.filter (fun dm => decide (dm.date = d)) = [] := by
    rw [List.filter_eq_nil_iff]
    intro dm hdm
    simp only [decide_eq_true_eq]
    intro hc
    exact h (List.mem_map.mpr ⟨dm, hdm, hc⟩)
  simp [lastMetricValue, hfil]

/-- Invariant of the merger fold: distinct keys; each entry keyed by its date
with duplicate-free metric keys; an entry exists exactly for the dates seen;
and each entry's metric lookup gives the last supplied value. -/
def mergeInv {α ε : Type} (acc : List (String × DayRec α ε))
    (dms : List (DayRec α ε)) : Prop :=
  (acc.map Prod.fst).Nodup ∧
  (∀ p ∈ acc, p.2.date = p.1) ∧
  (∀ p ∈ acc, (p.2.metrics.map Prod.fst).Nodup) ∧
  (∀ d, (acc.lookup d).isSome ↔ d ∈ dms.map (fun dm => dm.date)) ∧
  (∀ d e, acc.lookup d = some e →
    ∀ k, e.metrics.lookup k = lastMetricValue dms d k)

theorem flatMergeStep_inv {α ε : Type} (acc : List (String × DayRec α ε))
    (dms : List (DayRec α ε)) (dm : DayRec α ε)
    (hdm : (dm.metrics.map Prod.fst).Nodup) (h : mergeInv acc dms) :
    mergeInv (flatMergeStep acc dm) (dms ++ [dm]) := by
  obtain ⟨hnd, hdate, hmnd, hpres, hlast⟩ := h
  rcases hacc : acc.lookup dm.date with _ | ex
  · -- first record of this date
    have hres : flatMergeStep acc dm =
        setKey acc dm.date ⟨dm.date, dm.metrics, dm.exercises, dm.description⟩ := by
      rw [flatMergeStep, hacc]
    have hnotmem : dm.date ∉ acc.map Prod.fst :=
      (lookup_eq_none_iff acc dm.date).mp hacc
    have hnotdates : dm.date ∉ dms.map (fun x => x.date) := by
      intro hc
      have := (hpres dm.date).mpr hc
      rw [hacc] at this
      simp at this
    refine ⟨?_, ?_, ?_, ?_, ?_⟩
    · rw [hres]; exact nodup_keys_setKey acc dm.date _ hnd
    · rw [hres]
      intro p hp
      rcases mem_setKey hp with hp | hp
      · exact hdate p hp
      · rw [hp]
    · rw [hres]
      intro p hp
      rcases mem_setKey hp with hp | hp
      · exact hmnd p hp
      · rw [hp]; exact hdm
    · intro d
      rw [hres]
      by_cases hd : d = dm.date
      · subst hd
        rw [lookup_setKey_self]
        simp
      · rw [lookup_setKey_other _ _ _ _ hd, List.map_append]
        simp only [List.mem_append, List.map_cons, List.map_nil,
          List.mem_singleton, List.mem_cons, List.not_mem_nil, or_false]
        rw [hpres d]
        constructor
        · intro hmem; exact Or.inl hmem
        · intro hmem
          rcases hmem with hmem | hmem
          · exact hmem
          · exact absurd hmem.symm (fun hc => hd hc.symm)
    · intro d e he k
      rw [hres] at he
      by_cases hd : d = dm.date
      · subst hd
        rw [lookup_setKey_self] at he
        injection he with he
        rw [← he]
        rw [lastMetricValue_append_single, if_pos rfl,
          lastMetricValue_of_not_mem dms dm.date k hnotdates]
        rcases dm.metrics.lookup k with _ | v <;> rfl
      · rw [lookup_setKey_other _ _ _ _ hd] at he
        rw [lastMetricValue_append_single,
          if_neg (fun hc => hd hc.symm)]
        exact hlast d e he k
  · -- merge into the existing entry
    have hexdate : ex.date = dm.date :=
      hdate (dm.date, ex) (mem_of_lookup_eq_some hacc)
    have hexnd : (ex.metrics.map Prod.fst).Nodup :=
      hmnd (dm.date, ex) (mem_of_lookup_eq_some hacc)
    have hmem : dm.date ∈ acc.map Prod.fst :=
      List.mem_map.mpr ⟨(dm.date, ex), mem_of_lookup_eq_some hacc, rfl⟩
    have hres : flatMergeStep acc dm =
        setKey acc dm.date
          ⟨ex.date,
           mergeSpread ex.metrics dm.metrics,
           (match dm.exercises with
            | none => ex.exercises
            | some newEx =>
                match ex.exercises with
                | some oldEx => some (oldEx ++ newEx)
                | none => some newEx),
           (match dm.description with
            | some s => if s ≠ "" then some s else ex.description
            | none => ex.description)⟩ := by
      rw [flatMergeStep, hacc]
    refine ⟨?_, ?_, ?_, ?_, ?_⟩
    · rw [hres]; exact nodup_keys_setKey acc dm.date _ hnd
    · rw [hres]
      intro p hp
      rcases mem_setKey hp with hp | hp
      · exact hdate p hp
      · rw [hp]; exact hexdate
    · rw [hres]
      intro p hp
      rcases mem_setKey hp with hp | hp
      · exact hmnd p hp
      · rw [hp]
        exact nodup_keys_mergeSpread _ _ hexnd hdm
    · intro d
      rw [hres]
      by_cases hd : d = dm.date
      · subst hd
        rw [lookup_setKey_self]
        simp
      · rw [lookup_setKey_other _ _ _ _ hd, List.map_append]
        simp only [List.mem_append, List.map_cons, List.map_nil,
          List.mem_singleton, List.mem_cons, List.not_mem_nil, or_false]
        rw [hpres d]
        constructor
        · intro hmem2; exact Or.inl hmem2
        · intro hmem2
          rcases hmem2 with hmem2 | hmem2
          · exact hmem2
          · exact absurd hmem2.symm (fun hc => hd hc.symm)
    · intro d e he k
      rw [hres] at he
      by_cases hd : d = dm.date
      · subst hd
        rw [lookup_setKey_self] at he
        injection he with he
        rw [← he]
        simp only
        rw [mergeSpread_lookup, lastMetricValue_append_single, if_pos rfl,
          hlast dm.date ex hacc k]
      · rw [lookup_setKey_other _ _ _ _ hd] at he
        rw [lastMetricValue_append_single,
          if_neg (fun hc => hd hc.symm)]
        exact hlast d e he k

theorem mergeFold_inv {α ε : Type} (dms₂ : List (DayRec α ε)) :
    ∀ (acc : List (String × DayRec α ε)) (dms₁ : List (DayRec α ε)),
      (∀ dm ∈ dms₂, (dm.metrics.map Prod.fst).Nodup) →
      mergeInv acc dms₁ →
      mergeInv (dms₂.foldl flatMergeStep acc) (dms₁ ++ dms₂) := by
  induction dms₂ with
  | nil =>
      intro acc dms₁ _ h
      simpa using h
  | cons dm rest ih =>
      intro acc dms₁ hnd h
      have hstep := flatMergeStep_inv acc dms₁ dm (hnd dm (by simp)) h
      have := ih (flatMergeStep acc dm) (dms₁ ++ [dm])
        (fun x hx => hnd x (by simp [hx])) hstep
      simpa using this

theorem foldl_sets_eq_join {α ε : Type} (sets : List (List (DayRec α ε))) :
    ∀ init : List (String × DayRec α ε),
      sets.foldl (fun acc set => set.foldl flatMergeStep acc) init =
        sets.flatten.foldl flatMergeStep init := by
  induction sets with
  | nil => intro init; simp
  | cons s rest ih =>
      intro init
      simp only [List.foldl_cons, List.flatten_cons, List.foldl_append]
      exact ih _

/-! ## Claim C8: merger produces one sorted record per date, later source wins -/

/-- C8. For every list of parser output lists (with duplicate-free metric
keys, as JavaScript objects cannot hold duplicate keys), the merger returns
records strictly sorted by date string (hence exactly one record per distinct
date), a record exists for a date exactly when some input record carries it,
and every metric key of every output record holds the value supplied by the
LATER source in the supplied order (shallow overwrite). -/
theorem flatMerge_spec {α ε : Type} [DecidableEq α] [DecidableEq ε]
    (sets : List (List (DayRec α ε)))
    (hnd : ∀ s ∈ sets, ∀ dm ∈ s, (dm.metrics.map Prod.fst).Nodup) :
    List.Pairwise (fun a b => a.date < b.date) (flatMerge sets) ∧
    (∀ d, (∃ dm ∈ sets.flatten, dm.date = d) ↔
      ∃ m ∈ flatMerge sets, m.date = d) ∧
    (∀ m ∈ flatMerge sets, ∀ k,
      m.metrics.lookup k = lastMetricValue sets.flatten m.date k) := by
  have hnd' : ∀ dm ∈ sets.flatten, (dm.metrics.map Prod.fst).Nodup := by
    intro dm hdm
    obtain ⟨s, hs, hdms⟩ := List.mem_flatten.mp hdm
    exact hnd s hs dm hdms
  have h0 : mergeInv ([] : List (String × DayRec α ε)) [] := by
    refine ⟨by simp, by simp, by simp, ?_, ?_⟩
    · intro d; simp [List.lookup]
    · intro d e he; simp [List.lookup] at he
  have hinv := mergeFold_inv sets.flatten [] [] hnd' h0
  rw [List.nil_append] at hinv
  obtain ⟨hndk, hdate, hmnd, hpres, hlast⟩ := hinv
  have hfm : flatMerge sets =
      ((sets.flatten.foldl flatMergeStep []).map Prod.snd).insertionSort
        (fun a b => a.date ≤ b.date) := by
    rw [flatMerge, foldl_sets_eq_join]
  haveI instTot : IsTotal (DayRec α ε) (fun a b => a.date ≤ b.date) :=
    ⟨fun a b => le_total _ _⟩
  haveI instTrans : IsTrans (DayRec α ε) (fun a b => a.date ≤ b.date) :=
    ⟨fun a b c hab hbc => le_trans hab hbc⟩
  have hperm : (flatMerge sets).Perm
      ((sets.flatten.foldl flatMergeStep []).map Prod.snd) := by
    rw [hfm]
    exact List.perm_insertionSort _ _
  have hsorted : List.Pairwise (fun a b => a.date ≤ b.date) (flatMerge sets) := by
    rw [hfm]
    exact List.sorted_insertionSort _ _
  have hdates_eq :
      ((sets.flatten.foldl flatMergeStep []).map Prod.snd).map (fun m => m.date) =
        (sets.flatten.foldl flatMergeStep []).map Prod.fst := by
    rw [List.map_map]
    exact List.map_congr_left (fun p hp => hdate p hp)
  have hnodup_dates : ((flatMerge sets).map (fun m => m.date)).Nodup := by
    have hpm := hperm.map (fun m => m.date)
    rw [hdates_eq] at hpm
    exact hpm.nodup_iff.mpr hndk
  refine ⟨?_, ?_, ?_⟩
  · have hne : List.Pairwise (fun a b => a.date ≠ b.date) (flatMerge sets) :=
      List.pairwise_map.mp hnodup_dates
    exact (hsorted.and hne).imp (fun h => lt_of_le_of_ne h.1 h.2)
  · intro d
    constructor
    · rintro ⟨dm, hdm, hd⟩
      have hmem : d ∈ sets.flatten.map (fun dm => dm.date) :=
        List.mem_map.mpr ⟨dm, hdm, hd⟩
      have hs := (hpres d).mpr hmem
      rcases hl : (sets.flatten.foldl flatMergeStep []).lookup d with _ | e
      · rw [hl] at hs; simp at hs
      · refine ⟨e, ?_, hdate (d, e) (mem_of_lookup_eq_some hl)⟩
        exact hperm.mem_iff.mpr
          (List.mem_map.mpr ⟨(d, e), mem_of_lookup_eq_some hl, rfl⟩)
    · rintro ⟨m, hm, hd⟩
      have hm' : m ∈ (sets.flatten.foldl flatMergeStep []).map Prod.snd :=
        hperm.mem_iff.mp hm
      obtain ⟨p, hp, hpe⟩ := List.mem_map.mp hm'
      have hkey : p.1 = d := by
        rw [← hd, ← hpe]
        exact (hdate p hp).symm
      have hl : (sets.flatten.foldl flatMergeStep []).lookup d = some p.2 :=
        lookup_eq_of_mem_nodup hndk (by rw [← hkey]; exact hp)
      have hs := (hpres d).mp (by rw [hl]; rfl)
      obtain ⟨dm, hdm, hdmd⟩ := List.mem_map.mp hs
      exact ⟨dm, hdm, hdmd⟩
  · intro m hm k
    have hm' : m ∈ (sets.flatten.foldl flatMergeStep []).map Prod.snd :=
      hperm.mem_iff.mp hm
    obtain ⟨p, hp, hpe⟩ := List.mem_map.mp hm'
    have hkey : p.1 = m.date := by
      rw [← hpe]
      exact (hdate p hp).symm
    have hl : (sets.flatten.foldl flatMergeStep []).lookup m.date = some m := by
      have : (m.date, m) ∈ sets.flatten.foldl flatMergeStep [] := by
        rw [← hkey, ← hpe]
        exact hp
      exact lookup_eq_of_mem_nodup hndk this
    exact hlast m.date m hl k

/-- First parser output of the C8 witness: heart rate 72 and step count 5000
on 2025-08-17. -/
def c8set1 : List (DayRec ℚ Unit) :=
  [{ date := "2025-08-17",
     metrics := [("HeartRate", 72), ("StepCount", 5000)],
     exercises := none, description := none }]

/-- Second parser output of the C8 witness: step count 8500 (colliding key)
and body mass 75.5 on 2025-08-17. -/
def c8set2 : List (DayRec ℚ Unit) :=
  [{ date := "2025-08-17",
     metrics := [("StepCount", 8500), ("BodyMass", 151/2)],
     exercises := none, description := none }]

/-- C8, witness: the theorem applied at two concrete parser outputs; on the
colliding key StepCount the later source's 8500 is the last supplied value. -/
theorem flatMerge_spec_witness :
    (∀ s ∈ [c8set1, c8set2], ∀ dm ∈ s, (dm.metrics.map Prod.fst).Nodup) ∧
    (List.Pairwise (fun a b => a.date < b.date) (flatMerge [c8set1, c8set2]) ∧
     (∀ d, (∃ dm ∈ ([c8set1, c8set2] : List (List (DayRec ℚ Unit))).flatten,
        dm.date = d) ↔ ∃ m ∈ flatMerge [c8set1, c8set2], m.date = d) ∧
     (∀ m ∈ flatMerge [c8set1, c8set2], ∀ k,
       m.metrics.lookup k =
         lastMetricValue ([c8set1, c8set2] :
           List (List (DayRec ℚ Unit))).flatten m.date k)) ∧
    lastMetricValue ([c8set1, c8set2] :
        List (List (DayRec ℚ Unit))).flatten "2025-08-17" "StepCount" =
      some 8500 ∧
    lastMetricValue ([c8set1, c8set2] :
        List (List (DayRec ℚ Unit))).flatten "2025-08-17" "HeartRate" =
      some 72 := by
  have hnd : ∀ s ∈ [c8set1, c8set2], ∀ dm ∈ s,
      (dm.metrics.map Prod.fst).Nodup := by
    intro s hs dm hdm
    fin_cases hs
    · simp only [c8set1, List.mem_singleton] at hdm
      rw [hdm]
      simp
    · simp only [c8set2, List.mem_singleton] at hdm
      rw [hdm]
      simp
  refine ⟨hnd, flatMerge_spec [c8set1, c8set2] hnd, ?_, ?_⟩
  · simp [lastMetricValue, c8set1, c8set2, List.lookup]
  · simp [lastMetricValue, c8set1, c8set2, List.lookup]

end StatsConverter
